import Mathlib

/-!
Shallow embedding of the testgrid updater (`package main`, the grid-assembly
pipeline: gcsPath, JUnit parsing helpers, Column/Row model, AppendResult,
AppendMetric, AppendColumn, ReadBuild assembly, ReadBuilds column feed).

Go strings are byte slices; we model them as lists of characters (`GoStr`),
which is exact for the ASCII data the claims are about.  Go `int`/`int32`/
`int64` values are modelled as `Int` (no overflow occurs at the magnitudes
involved).  Go maps are modelled as association lists; where the source
iterates a map, the result proved is independent of iteration order or the
order is irrelevant to the claim, as noted at each definition.
-/

set_option maxRecDepth 20000

namespace Testgrid

/-- Go strings (byte strings) modelled as lists of characters. -/
abbrev GoStr := List Char

/-- Coerce a Lean string literal to a `GoStr`. -/
def gs (s : String) : GoStr := s.data

/-- `state.Row_Result` enum of the testgrid state proto, with its wire values.
Only the values used by the updater are listed. -/
inductive RowResult where
  | noResult
  | pass
  | passWithErrors
  | passWithSkips
  | running
  | fail
  | flaky
  deriving DecidableEq, Repr

/-- Numeric proto value of a `state.Row_Result` (NO_RESULT=0, PASS=1,
PASS_WITH_ERRORS=2, PASS_WITH_SKIPS=3, RUNNING=4, FAIL=11, FLAKY=12). -/
def RowResult.toInt : RowResult → Int
  | .noResult => 0
  | .pass => 1
  | .passWithErrors => 2
  | .passWithSkips => 3
  | .running => 4
  | .fail => 11
  | .flaky => 12

/-- Pre-aggregation row record (`type Row` in the source).  Metric values are
`float64` in Go; the claims only involve integer-valued metrics, so values are
modelled as `Int`. -/
structure Row where
  Result : RowResult
  Metrics : List (GoStr × Int)
  Metadata : List (GoStr × GoStr)
  Message : GoStr
  Icon : GoStr
  deriving DecidableEq, Repr

/-- `var noResult = Row{Result: state.Row_NO_RESULT}` (other fields zero). -/
def noResultRow : Row :=
  { Result := .noResult, Metrics := [], Metadata := [], Message := [], Icon := [] }

/-- One build's contribution (`type Column` in the source).  `Rows` is a
Go map `string -> []Row`, modelled as an association list. -/
structure Column where
  Id : GoStr
  Started : Int
  Finished : Int
  Passed : Bool
  Rows : List (GoStr × List Row)
  Metadata : List (GoStr × GoStr)
  deriving DecidableEq, Repr

/-- `state.Metric`: name plus run-length-encoded indices and the values. -/
structure StateMetric where
  Name : GoStr
  Indices : List Int
  Values : List Int
  deriving DecidableEq, Repr

/-- `state.Row`: one test's run-length-encoded history across the grid. -/
structure StateRow where
  Name : GoStr
  Id : GoStr
  Results : List Int
  CellIds : List GoStr
  Messages : List GoStr
  Icons : List GoStr
  Metrics : List StateMetric
  deriving DecidableEq, Repr

/-- `state.Column`: build id, start in milliseconds, and header values. -/
structure StateColumn where
  Build : GoStr
  Started : Int
  Extra : List GoStr
  deriving DecidableEq, Repr

/-- `state.Grid`: the output columns and rows. -/
structure Grid where
  Columns : List StateColumn
  Rows : List StateRow
  deriving DecidableEq, Repr

/-- `const elapsedKey = "seconds-elapsed"`. -/
def elapsedKey : GoStr := gs "seconds-elapsed"

/-- `AppendMetric(metric, idx, value)`: extend the RLE index groups.  If the
last group does not end exactly at `idx`, start a new `[idx, 1]` group, else
bump the trailing length; the value is always appended. -/
def AppendMetric (metric : StateMetric) (idx : Int) (value : Int) : StateMetric :=
  let l := metric.Indices.length
  let indices :=
    if l == 0 || metric.Indices.getD (l - 2) 0 + metric.Indices.getD (l - 1) 0 != idx then
      metric.Indices ++ [idx, 1]
    else
      metric.Indices.take (l - 1) ++ [metric.Indices.getD (l - 1) 0 + 1]
  { metric with Indices := indices, Values := metric.Values ++ [value] }

/-- `AppendResult(row, rowResult, count)`: run-length append of `count` cells
of result `rowResult.Result`; a cell id (always `""`) is appended per cell;
messages and icons are appended per cell only for non-`NO_RESULT` results.
Go indexes `row.Results[n-2]`, which would panic for `n = 1`; rows built by
this package always have even-length `Results`, where `Nat` subtraction in
`getD` agrees with the Go index. -/
def AppendResult (row : StateRow) (rowResult : Row) (count : Nat) : StateRow :=
  let latest : Int := rowResult.Result.toInt
  let n := row.Results.length
  let results :=
    if n == 0 || row.Results.getD (n - 2) 0 != latest then
      row.Results ++ [latest, (count : Int)]
    else
      row.Results.take (n - 1) ++ [row.Results.getD (n - 1) 0 + (count : Int)]
  let cellIds := row.CellIds ++ List.replicate count []
  if rowResult.Result != RowResult.noResult then
    { row with Results := results, CellIds := cellIds,
               Messages := row.Messages ++ List.replicate count rowResult.Message,
               Icons := row.Icons ++ List.replicate count rowResult.Icon }
  else
    { row with Results := results, CellIds := cellIds }

/-- Total cell count of an RLE results list: `sum(results[1::2])`. -/
def rleCellCount : List Int → Int
  | _ :: c :: rest => c + rleCellCount rest
  | _ => 0

/-- Cell count of the RLE groups whose value is not `NO_RESULT` (0). -/
def rleLiveCount : List Int → Int
  | v :: c :: rest => (if v = 0 then 0 else c) + rleLiveCount rest
  | _ => 0

theorem rleCellCount_append_pair (v c : Int) :
    ∀ l : List Int, l.length % 2 = 0 →
      rleCellCount (l ++ [v, c]) = rleCellCount l + c
  | [], _ => by simp [rleCellCount]
  | [_], h => by simp at h
  | x :: y :: rest, h => by
      have hlen : rest.length % 2 = 0 := by
        simp only [List.length_cons] at h; omega
      have ih := rleCellCount_append_pair v c rest hlen
      simp only [List.cons_append, rleCellCount, List.append_eq]
      rw [ih]; ring

theorem rleLiveCount_append_pair (v c : Int) :
    ∀ l : List Int, l.length % 2 = 0 →
      rleLiveCount (l ++ [v, c]) = rleLiveCount l + (if v = 0 then 0 else c)
  | [], _ => by simp [rleLiveCount]
  | [_], h => by simp at h
  | x :: y :: rest, h => by
      have hlen : rest.length % 2 = 0 := by
        simp only [List.length_cons] at h; omega
      have ih := rleLiveCount_append_pair v c rest hlen
      simp only [List.cons_append, rleLiveCount, List.append_eq]
      rw [ih]; ring

theorem even_rle_decomp :
    ∀ l : List Int, l.length % 2 = 0 → l ≠ [] →
      ∃ t v c, l = t ++ [v, c] ∧ t.length % 2 = 0
  | [], _, hne => absurd rfl hne
  | [_], h, _ => by simp at h
  | [x, y], h2, _ => ⟨[], x, y, by simp, by simp⟩
  | x :: y :: z :: rest2, h, _ => by
      have hlen : (z :: rest2).length % 2 = 0 := by
        simp only [List.length_cons] at h ⊢; omega
      obtain ⟨t, v, c, heq, ht⟩ := even_rle_decomp (z :: rest2) hlen (by simp)
      exact ⟨x :: y :: t, v, c, by simp [heq],
        by simp only [List.length_cons]; omega⟩

theorem concat2_take (t : List Int) (v c : Int) :
    (t ++ [v, c]).take ((t ++ [v, c]).length - 1) = t ++ [v] := by
  have hl : (t ++ [v, c]).length - 1 = t.length + 1 := by simp
  rw [hl, List.take_append, List.take_succ_cons]
  simp

theorem concat2_getD_last (t : List Int) (v c : Int) :
    (t ++ [v, c]).getD ((t ++ [v, c]).length - 1) 0 = c := by
  have hl : (t ++ [v, c]).length - 1 = t.length + 1 := by simp
  rw [hl, List.getD_append_right _ _ _ _ (by omega)]
  simp

theorem concat2_getD_penult (t : List Int) (v c : Int) :
    (t ++ [v, c]).getD ((t ++ [v, c]).length - 2) 0 = v := by
  have hl : (t ++ [v, c]).length - 2 = t.length := by simp
  rw [hl, List.getD_append_right _ _ _ _ (by omega)]
  simp

theorem RowResult.toInt_eq_zero_iff (r : RowResult) :
    r.toInt = 0 ↔ r = RowResult.noResult := by
  cases r <;> simp [RowResult.toInt]

theorem appendResult_Results (row : StateRow) (res : Row) (count : Nat) :
    (AppendResult row res count).Results =
      (if row.Results.length == 0 ||
          row.Results.getD (row.Results.length - 2) 0 != res.Result.toInt then
        row.Results ++ [res.Result.toInt, (count : Int)]
      else
        row.Results.take (row.Results.length - 1) ++
          [row.Results.getD (row.Results.length - 1) 0 + (count : Int)]) := by
  unfold AppendResult
  split <;> rfl

theorem appendResult_CellIds (row : StateRow) (res : Row) (count : Nat) :
    (AppendResult row res count).CellIds =
      row.CellIds ++ List.replicate count [] := by
  unfold AppendResult
  split <;> rfl

theorem appendResult_Messages (row : StateRow) (res : Row) (count : Nat) :
    (AppendResult row res count).Messages =
      row.Messages ++ (if res.Result = RowResult.noResult then []
                       else List.replicate count res.Message) := by
  unfold AppendResult
  by_cases h : res.Result = RowResult.noResult <;> simp [h]

theorem appendResult_Icons (row : StateRow) (res : Row) (count : Nat) :
    (AppendResult row res count).Icons =
      row.Icons ++ (if res.Result = RowResult.noResult then []
                    else List.replicate count res.Icon) := by
  unfold AppendResult
  by_cases h : res.Result = RowResult.noResult <;> simp [h]

theorem appendResult_Name (row : StateRow) (res : Row) (count : Nat) :
    (AppendResult row res count).Name = row.Name := by
  unfold AppendResult
  split <;> rfl

theorem appendResult_Id (row : StateRow) (res : Row) (count : Nat) :
    (AppendResult row res count).Id = row.Id := by
  unfold AppendResult
  split <;> rfl

theorem appendResult_Metrics (row : StateRow) (res : Row) (count : Nat) :
    (AppendResult row res count).Metrics = row.Metrics := by
  unfold AppendResult
  split <;> rfl

theorem appendResult_counts (row : StateRow) (res : Row) (count : Nat)
    (heven : row.Results.length % 2 = 0) :
    (AppendResult row res count).Results.length % 2 = 0 ∧
    rleCellCount (AppendResult row res count).Results =
      rleCellCount row.Results + count ∧
    rleLiveCount (AppendResult row res count).Results =
      rleLiveCount row.Results +
        (if res.Result = RowResult.noResult then 0 else (count : Int)) := by
  rw [appendResult_Results]
  rcases eq_or_ne row.Results [] with hnil | hne
  · rw [hnil]
    simp only [List.length_nil, List.nil_append]
    norm_num [rleCellCount, rleLiveCount]
    by_cases h : res.Result = RowResult.noResult
    · rw [if_pos ((RowResult.toInt_eq_zero_iff res.Result).mpr h), if_pos h]
    · rw [if_neg (fun h0 => h ((RowResult.toInt_eq_zero_iff res.Result).mp h0)),
          if_neg h]
  · obtain ⟨t, v, c, heq, ht⟩ := even_rle_decomp row.Results heven hne
    rw [heq] at heven ⊢
    by_cases hv : v = res.Result.toInt
    · have hcond : ((t ++ [v, c]).length == 0 ||
          (t ++ [v, c]).getD ((t ++ [v, c]).length - 2) 0 != res.Result.toInt)
            = false := by
        rw [concat2_getD_penult, hv]
        simp
      rw [hcond]
      simp only [Bool.false_eq_true, if_false]
      rw [concat2_take, concat2_getD_last]
      have hassoc : (t ++ [v]) ++ [c + (count : Int)] = t ++ [v, c + count] := by
        simp
      rw [hassoc]
      refine ⟨?_, ?_, ?_⟩
      · simp only [List.length_append, List.length_cons,
          List.length_nil] at heven ⊢
        omega
      · rw [rleCellCount_append_pair _ _ t ht, rleCellCount_append_pair _ _ t ht]
        ring
      · rw [rleLiveCount_append_pair _ _ t ht, rleLiveCount_append_pair _ _ t ht]
        by_cases hz : v = 0
        · have hres : res.Result = RowResult.noResult :=
            (RowResult.toInt_eq_zero_iff res.Result).mp (hv ▸ hz)
          rw [if_pos hz, if_pos hz, if_pos hres]
          ring
        · have hres : res.Result ≠ RowResult.noResult := by
            intro hnr
            exact hz (hv.trans ((RowResult.toInt_eq_zero_iff res.Result).mpr hnr))
          rw [if_neg hz, if_neg hz, if_neg hres]
          ring
    · have hcond : ((t ++ [v, c]).length == 0 ||
          (t ++ [v, c]).getD ((t ++ [v, c]).length - 2) 0 != res.Result.toInt)
            = true := by
        rw [concat2_getD_penult]
        simp [hv]
      rw [hcond]
      simp only [if_true]
      refine ⟨?_, ?_, ?_⟩
      · simp only [List.length_append, List.length_cons,
          List.length_nil] at heven ⊢
        omega
      · rw [rleCellCount_append_pair _ _ _ heven]
      · rw [rleLiveCount_append_pair _ _ _ heven]
        by_cases hz : res.Result = RowResult.noResult
        · rw [if_pos ((RowResult.toInt_eq_zero_iff res.Result).mpr hz), if_pos hz]
        · rw [if_neg (fun h0 => hz ((RowResult.toInt_eq_zero_iff res.Result).mp h0)),
              if_neg hz]

/-- C9: every call to `AppendResult` preserves `len(Messages) = len(Icons)`
and `len(CellIds) = sum(Results[1::2])`; cell ids are appended for every cell
(including `NO_RESULT` cells) and every appended cell id is the empty string;
`Messages` and `Icons` grow by `count` exactly when the appended result is not
`NO_RESULT`.  The evenness hypothesis records that `Results` is a well-formed
RLE list of value/count pairs, which is true of every row the updater builds
(Go would panic on an odd-length `Results`). -/
theorem C9_appendResult_invariants (row : StateRow) (res : Row) (count : Nat)
    (heven : row.Results.length % 2 = 0)
    (hmi : row.Messages.length = row.Icons.length)
    (hcell : (row.CellIds.length : Int) = rleCellCount row.Results) :
    (AppendResult row res count).Messages.length =
      (AppendResult row res count).Icons.length ∧
    ((AppendResult row res count).CellIds.length : Int) =
      rleCellCount (AppendResult row res count).Results ∧
    (AppendResult row res count).CellIds =
      row.CellIds ++ List.replicate count [] ∧
    (res.Result ≠ RowResult.noResult →
      (AppendResult row res count).Messages =
        row.Messages ++ List.replicate count res.Message ∧
      (AppendResult row res count).Icons.length = row.Icons.length + count) ∧
    (res.Result = RowResult.noResult →
      (AppendResult row res count).Messages = row.Messages ∧
      (AppendResult row res count).Icons = row.Icons) := by
  obtain ⟨hev, hcnt, _⟩ := appendResult_counts row res count heven
  refine ⟨?_, ?_, ?_, ?_, ?_⟩
  · rw [appendResult_Messages, appendResult_Icons]
    by_cases h : res.Result = RowResult.noResult <;> simp [h, hmi]
  · rw [hcnt, appendResult_CellIds]
    simp [hcell]
  · exact appendResult_CellIds row res count
  · intro h
    rw [appendResult_Messages, appendResult_Icons]
    simp [h]
  · intro h
    rw [appendResult_Messages, appendResult_Icons]
    simp [h]

/-- Concrete witness for `C9_appendResult_invariants`. -/
theorem C9_appendResult_invariants_witness :
    (([(1 : Int), 2] : List Int).length % 2 = 0) ∧
    ((AppendResult
        { Name := gs "t", Id := gs "t", Results := [1, 2],
          CellIds := [[], []], Messages := [gs "a", gs "b"],
          Icons := [gs "F", []], Metrics := [] }
        { Result := RowResult.fail, Metrics := [], Metadata := [],
          Message := gs "boom", Icon := gs "F" } 1).Messages.length =
      (AppendResult
        { Name := gs "t", Id := gs "t", Results := [1, 2],
          CellIds := [[], []], Messages := [gs "a", gs "b"],
          Icons := [gs "F", []], Metrics := [] }
        { Result := RowResult.fail, Metrics := [], Metadata := [],
          Message := gs "boom", Icon := gs "F" } 1).Icons.length) := by
  refine ⟨by decide, ?_⟩
  exact (C9_appendResult_invariants
    { Name := gs "t", Id := gs "t", Results := [1, 2],
      CellIds := [[], []], Messages := [gs "a", gs "b"],
      Icons := [gs "F", []], Metrics := [] }
    { Result := RowResult.fail, Metrics := [], Metadata := [],
      Message := gs "boom", Icon := gs "F" } 1
    (by decide) (by decide) (by decide)).1

/-! ## JUnit test-case records and message truncation -/

/-- `type JunitResult` (the XML attributes/children the updater reads).
`Time` is a `float64` in Go; the claims only inspect whether it is positive,
so it is modelled as an `Int`. -/
structure JunitResult where
  Name : GoStr
  Time : Int
  ClassName : GoStr
  Failure : Option GoStr
  Output : Option GoStr
  Error : Option GoStr
  Skipped : Option GoStr
  deriving DecidableEq, Repr

/-- Go `p != nil && *p != ""` for an optional string field. -/
def optNonEmpty : Option GoStr → Bool
  | some s => !s.isEmpty
  | none => false

/-- The `switch` at the top of `JunitResult.Message()`: the first non-empty
of failure, skipped, output text, else the empty string. -/
def junitSelectedMessage (jr : JunitResult) : GoStr :=
  if optNonEmpty jr.Failure then jr.Failure.getD []
  else if optNonEmpty jr.Skipped then jr.Skipped.getD []
  else if optNonEmpty jr.Output then jr.Output.getD []
  else []

/-- `JunitResult.Message()`: select the message, then truncate via
`msg[:max/2] + "..." + msg[l-max/2-1:]` when longer than `max = 140`. -/
def JunitResult.Message (jr : JunitResult) : GoStr :=
  let maxLen : Nat := 140
  let msg := junitSelectedMessage jr
  if maxLen = 0 ∨ msg.length ≤ maxLen then msg
  else msg.take (maxLen / 2) ++ gs "..." ++ msg.drop (msg.length - maxLen / 2 - 1)

/-- C2 counterexample: for a 141-character failure message the code returns
the first 70 characters, `"..."`, and the last 71 characters (length 144),
not the last 69 characters (length 142) the claim predicts. -/
theorem C2_message_truncation_counterexample :
    JunitResult.Message
      { Name := gs "t", Time := 0, ClassName := [],
        Failure := some (List.replicate 141 'a'), Output := none,
        Error := none, Skipped := none } ≠
      (List.replicate 141 'a').take 70 ++ gs "..." ++
        (List.replicate 141 'a').drop (141 - 69) := by
  decide

/-- C2 (amended): a message of length at most 140 is returned unchanged; a
message strictly longer than 140 characters is returned as its first 70
characters, then `"..."`, then its last 71 (not 69) characters. -/
theorem C2_message_truncation (jr : JunitResult) :
    ((junitSelectedMessage jr).length ≤ 140 →
      jr.Message = junitSelectedMessage jr) ∧
    (140 < (junitSelectedMessage jr).length →
      jr.Message =
        (junitSelectedMessage jr).take 70 ++ gs "..." ++
          (junitSelectedMessage jr).drop ((junitSelectedMessage jr).length - 71) ∧
      ((junitSelectedMessage jr).drop
          ((junitSelectedMessage jr).length - 71)).length = 71) := by
  constructor
  · intro hle
    simp only [JunitResult.Message]
    rw [if_pos (Or.inr hle)]
  · intro hgt
    simp only [JunitResult.Message]
    rw [if_neg (by omega)]
    refine ⟨?_, ?_⟩
    · have : (junitSelectedMessage jr).length - 140 / 2 - 1 =
          (junitSelectedMessage jr).length - 71 := by omega
      rw [this]
    · rw [List.length_drop]
      omega

/-- Concrete witness for `C2_message_truncation`: the 141-character message
is truncated to first 70 + `"..."` + last 71. -/
theorem C2_message_truncation_witness :
    (140 < (junitSelectedMessage
      { Name := gs "t", Time := 0, ClassName := [],
        Failure := some (List.replicate 141 'a'), Output := none,
        Error := none, Skipped := none }).length) ∧
    JunitResult.Message
      { Name := gs "t", Time := 0, ClassName := [],
        Failure := some (List.replicate 141 'a'), Output := none,
        Error := none, Skipped := none } =
      (List.replicate 141 'a').take 70 ++ gs "..." ++
        (List.replicate 141 'a').drop (141 - 71) := by
  refine ⟨by decide, ?_⟩
  have h := (C2_message_truncation
    { Name := gs "t", Time := 0, ClassName := [],
      Failure := some (List.replicate 141 'a'), Output := none,
      Error := none, Skipped := none }).2 (by decide)
  exact h.1

/-! ## The synthesized Overall row -/

/-- `Column.Overall()`.  The source compares against
`time.Now().Add(-24*time.Hour).Unix()`; `now` is that wall clock in Unix
seconds, passed explicitly. -/
def Column.Overall (now : Int) (br : Column) : Row :=
  if br.Finished > 0 then
    { Result := if br.Passed then RowResult.pass else RowResult.fail,
      Metrics := [(elapsedKey, br.Finished - br.Started)],
      Metadata := [(gs "Tests name", gs "Overall")],
      Message := [], Icon := [] }
  else if now - 24 * 60 * 60 > br.Started then
    { Result := RowResult.fail, Metrics := [],
      Metadata := [(gs "Tests name", gs "Overall")],
      Message := gs "Testing did not complete within 24 hours",
      Icon := gs "T" }
  else
    { Result := RowResult.running, Metrics := [],
      Metadata := [(gs "Tests name", gs "Overall")],
      Message := gs "Still running; has not finished...",
      Icon := gs "R" }

/-- C4: Overall() returns PASS/FAIL with the seconds-elapsed metric equal to
finished − started when the finished timestamp is set (positive, `0` being
the zero value of an unset field); else FAIL with the 24-hour timeout message
and icon `T` when the build started more than 24 hours before `now`; else
RUNNING with the still-running message and icon `R`. -/
theorem C4_overall_spec (now : Int) (br : Column) :
    (0 < br.Finished →
      (Column.Overall now br).Result =
        (if br.Passed then RowResult.pass else RowResult.fail) ∧
      (Column.Overall now br).Metrics =
        [(elapsedKey, br.Finished - br.Started)] ∧
      (Column.Overall now br).Message = [] ∧
      (Column.Overall now br).Icon = []) ∧
    (br.Finished ≤ 0 → br.Started < now - 24 * 60 * 60 →
      (Column.Overall now br).Result = RowResult.fail ∧
      (Column.Overall now br).Message =
        gs "Testing did not complete within 24 hours" ∧
      (Column.Overall now br).Icon = gs "T") ∧
    (br.Finished ≤ 0 → ¬ br.Started < now - 24 * 60 * 60 →
      (Column.Overall now br).Result = RowResult.running ∧
      (Column.Overall now br).Message =
        gs "Still running; has not finished..." ∧
      (Column.Overall now br).Icon = gs "R") := by
  refine ⟨fun h1 => ?_, fun h1 h2 => ?_, fun h1 h2 => ?_⟩
  · simp only [Column.Overall]
    rw [if_pos h1]
    exact ⟨rfl, rfl, rfl, rfl⟩
  · simp only [Column.Overall]
    rw [if_neg (by omega), if_pos h2]
    exact ⟨rfl, rfl, rfl⟩
  · simp only [Column.Overall]
    rw [if_neg (by omega), if_neg h2]
    exact ⟨rfl, rfl, rfl⟩

/-- Concrete witness for `C4_overall_spec`: all three branches at concrete
columns (finished-and-passed, timed out, still running), with
`now = 1000000`. -/
theorem C4_overall_spec_witness :
    (0 < (100 : Int) ∧
      (Column.Overall 1000000
        { Id := gs "b1", Started := 40, Finished := 100, Passed := true,
          Rows := [], Metadata := [] }).Result = RowResult.pass) ∧
    ((0 : Int) ≤ 0 ∧ (10 : Int) < 1000000 - 24 * 60 * 60 ∧
      (Column.Overall 1000000
        { Id := gs "b2", Started := 10, Finished := 0, Passed := false,
          Rows := [], Metadata := [] }).Icon = gs "T") ∧
    ((0 : Int) ≤ 0 ∧ ¬ (999999 : Int) < 1000000 - 24 * 60 * 60 ∧
      (Column.Overall 1000000
        { Id := gs "b3", Started := 999999, Finished := 0, Passed := false,
          Rows := [], Metadata := [] }).Icon = gs "R") := by
  refine ⟨⟨by decide, ?_⟩, ⟨by decide, by decide, ?_⟩, ⟨by decide, by decide, ?_⟩⟩
  · have h := (C4_overall_spec 1000000
      { Id := gs "b1", Started := 40, Finished := 100, Passed := true,
        Rows := [], Metadata := [] }).1 (by decide)
    rw [h.1]
    decide
  · exact (((C4_overall_spec 1000000
      { Id := gs "b2", Started := 10, Finished := 0, Passed := false,
        Rows := [], Metadata := [] }).2.1 (by decide) (by decide)).2.2)
  · exact (((C4_overall_spec 1000000
      { Id := gs "b3", Started := 999999, Finished := 0, Passed := false,
        Rows := [], Metadata := [] }).2.2 (by decide) (by decide)).2.2)

/-! ## Build metadata and the pure tail of ReadBuild -/

/-- A value in the free-form `finished.json` metadata map: a string, or any
non-string JSON value (number, object, array, bool, null), which
`ColumnMetadata()` drops. -/
inductive MetaValue where
  | str (s : GoStr)
  | nonStr
  deriving DecidableEq, Repr

/-- `started.json` (`type Started`). -/
structure Started where
  Timestamp : Int
  RepoVersion : GoStr
  Node : GoStr
  Pull : GoStr
  Repos : List (GoStr × GoStr)
  deriving DecidableEq, Repr

/-- `finished.json` (`type Finished`); `running` is the sentinel set when the
object does not exist yet. -/
structure Finished where
  Timestamp : Int
  Passed : Bool
  JobVersion : GoStr
  Metadata : List (GoStr × MetaValue)
  running : Bool
  deriving DecidableEq, Repr

/-- `Metadata.ColumnMetadata()`: keep only the string-valued entries.  The Go
map iteration order is arbitrary; the association list fixes one order, which
no claim observes. -/
def metadataColumnMetadata (m : List (GoStr × MetaValue)) :
    List (GoStr × GoStr) :=
  m.filterMap fun p =>
    match p.2 with
    | .str s => some (p.1, s)
    | .nonStr => none

/-- Go map lookup on an association list (first match). -/
def lookupAssoc (m : List (GoStr × GoStr)) (k : GoStr) : Option GoStr :=
  (m.find? fun p => p.1 == k).map fun p => p.2

/-- `br.Rows[t] = append(br.Rows[t], rs...)` on the association-list rows
map. -/
def rowsMapAppend (m : List (GoStr × List Row)) (t : GoStr) (rs : List Row) :
    List (GoStr × List Row) :=
  if m.any fun p => p.1 == t then
    m.map fun p => if p.1 == t then (p.1, p.2 ++ rs) else p
  else m ++ [(t, rs)]

/-- The `ft` scan in ReadBuild: does any non-"Overall" row list hold a FAIL
record? -/
def hasNonOverallFail (rows : List (GoStr × List Row)) : Bool :=
  rows.any fun p =>
    p.1 != gs "Overall" && p.2.any fun r => r.Result == RowResult.fail

/-- `br.Rows["Overall"][0].Icon = "F"; ... .Message = "Build failed outside
of test results"` on the rows map. -/
def amendOverall (rows : List (GoStr × List Row)) : List (GoStr × List Row) :=
  rows.map fun p =>
    if p.1 == gs "Overall" then
      (p.1,
        match p.2 with
        | r :: rest =>
            { r with Icon := gs "F",
                     Message := gs "Build failed outside of test results" }
              :: rest
        | [] => [])
    else p

/-- The column as assembled for a finished build, before the rows map has
been filled (`br` with Finished/Metadata/Passed set). -/
def readBuildBase (baseId : GoStr) (started : Started) (finished : Finished) :
    Column :=
  { Id := baseId, Started := started.Timestamp,
    Finished := finished.Timestamp,
    Passed := finished.Passed, Rows := [],
    Metadata := metadataColumnMetadata finished.Metadata }

/-- The `or := br.Overall()` computed for a finished build. -/
def readBuildOverall (now : Int) (baseId : GoStr) (started : Started)
    (finished : Finished) : Row :=
  Column.Overall now (readBuildBase baseId started finished)

/-- `br.Rows` after seeding `{"Overall": {or}}` and merging each parsed
artifact row map (`for t, rs := range rows`). -/
def readBuildMergedRows (now : Int) (baseId : GoStr) (started : Started)
    (finished : Finished) (artifactRows : List (GoStr × List Row)) :
    List (GoStr × List Row) :=
  artifactRows.foldl (fun acc p => rowsMapAppend acc p.1 p.2)
    [(gs "Overall", [readBuildOverall now baseId started finished])]

/-- The pure tail of `ReadBuild` (lines after started/finished and the parsed
artifact row maps have been received): build the column, seed the Overall
row, merge artifact rows, and apply the failure-without-tests fix.  `baseId`
is `path.Base(build.Prefix)`. -/
def ReadBuildColumn (now : Int) (baseId : GoStr) (started : Started)
    (finished : Finished) (artifactRows : List (GoStr × List Row)) : Column :=
  let br0 : Column :=
    { Id := baseId, Started := started.Timestamp, Finished := 0,
      Passed := false, Rows := [], Metadata := [] }
  if finished.running then
    { br0 with Rows := [(gs "Overall", [Column.Overall now br0])] }
  else
    let or := readBuildOverall now baseId started finished
    let rows1 := readBuildMergedRows now baseId started finished artifactRows
    let rows2 :=
      if or.Result = RowResult.fail ∧ hasNonOverallFail rows1 = false then
        amendOverall rows1
      else rows1
    { readBuildBase baseId started finished with Rows := rows2 }

theorem overall_result_of_finished (now : Int) (br : Column)
    (hfin : 0 < br.Finished) (hp : br.Passed = false) :
    (Column.Overall now br).Result = RowResult.fail := by
  simp only [Column.Overall]
  rw [if_pos hfin, hp]
  rfl

theorem mergedRows_shape :
    ∀ (ars : List (GoStr × List Row)) (k : GoStr) (v : Row)
      (v0 : List Row) (acc : List (GoStr × List Row)),
      ∃ w acc2,
        ars.foldl (fun a p => rowsMapAppend a p.1 p.2) ((k, v :: v0) :: acc) =
          (k, v :: w) :: acc2
  | [], k, v, v0, acc => ⟨v0, acc, rfl⟩
  | (t, rs) :: ars2, k, v, v0, acc => by
      simp only [List.foldl_cons]
      by_cases h : ((k, v :: v0) :: acc).any (fun p => p.1 == t) = true
      · rw [rowsMapAppend, if_pos h]
        simp only [List.map_cons]
        by_cases hk : (k == t) = true
        · simp only [hk, if_true, List.cons_append]
          exact mergedRows_shape ars2 k v (v0 ++ rs) _
        · simp only [hk, Bool.false_eq_true, if_false]
          exact mergedRows_shape ars2 k v v0 _
      · rw [rowsMapAppend, if_neg h]
        simp only [List.cons_append]
        exact mergedRows_shape ars2 k v v0 _

/-- C10: when `finished.json` is absent (the running sentinel), ReadBuild
returns a column whose rows map is exactly `{"Overall": [Overall()]}` (one
key, one row), any parsed JUnit artifact rows are discarded, and Finished,
Passed and Metadata stay at their zero values. -/
theorem C10_running_build (now : Int) (baseId : GoStr) (started : Started)
    (finished : Finished) (artifactRows : List (GoStr × List Row))
    (hrun : finished.running = true) :
    (ReadBuildColumn now baseId started finished artifactRows).Rows =
      [(gs "Overall",
        [Column.Overall now
          { Id := baseId, Started := started.Timestamp, Finished := 0,
            Passed := false, Rows := [], Metadata := [] }])] ∧
    (ReadBuildColumn now baseId started finished artifactRows).Finished = 0 ∧
    (ReadBuildColumn now baseId started finished artifactRows).Passed
      = false ∧
    (ReadBuildColumn now baseId started finished artifactRows).Metadata
      = [] ∧
    (ReadBuildColumn now baseId started finished artifactRows).Id = baseId ∧
    (ReadBuildColumn now baseId started finished artifactRows).Started
      = started.Timestamp := by
  simp [ReadBuildColumn, hrun]

/-- Concrete witness for `C10_running_build`: a running build with a parsed
JUnit row map that is discarded. -/
theorem C10_running_build_witness :
    ({ Timestamp := 0, Passed := true, JobVersion := gs "v",
       Metadata := [(gs "k", MetaValue.str (gs "x"))],
       running := true : Finished }).running = true ∧
    (ReadBuildColumn 1000 (gs "77")
      { Timestamp := 5, RepoVersion := [], Node := [], Pull := [],
        Repos := [] }
      { Timestamp := 0, Passed := true, JobVersion := gs "v",
        Metadata := [(gs "k", MetaValue.str (gs "x"))], running := true }
      [(gs "T", [noResultRow])]).Rows =
      [(gs "Overall",
        [Column.Overall 1000
          { Id := gs "77", Started := 5, Finished := 0, Passed := false,
            Rows := [], Metadata := [] }])] := by
  refine ⟨rfl, ?_⟩
  exact (C10_running_build 1000 (gs "77")
    { Timestamp := 5, RepoVersion := [], Node := [], Pull := [], Repos := [] }
    { Timestamp := 0, Passed := true, JobVersion := gs "v",
      Metadata := [(gs "k", MetaValue.str (gs "x"))], running := true }
    [(gs "T", [noResultRow])] rfl).1

/-- C8: for a finished failing build (`finished.passed = false`), if no
non-Overall row holds a FAIL record the Overall row is amended to icon `F`
and message `"Build failed outside of test results"`; if some non-Overall
row has a FAIL record, the rows map (hence the Overall row's icon and
message) is left unchanged. -/
theorem C8_fail_without_tests (now : Int) (baseId : GoStr) (started : Started)
    (finished : Finished) (artifactRows : List (GoStr × List Row))
    (hrun : finished.running = false) (hfin : 0 < finished.Timestamp)
    (hpass : finished.Passed = false) :
    (hasNonOverallFail
        (readBuildMergedRows now baseId started finished artifactRows)
          = false →
      ∃ w acc,
        (ReadBuildColumn now baseId started finished artifactRows).Rows =
          (gs "Overall",
            { readBuildOverall now baseId started finished with
                Icon := gs "F",
                Message := gs "Build failed outside of test results" } :: w)
            :: acc) ∧
    (hasNonOverallFail
        (readBuildMergedRows now baseId started finished artifactRows)
          = true →
      (ReadBuildColumn now baseId started finished artifactRows).Rows =
        readBuildMergedRows now baseId started finished artifactRows) := by
  have hor : (readBuildOverall now baseId started finished).Result
      = RowResult.fail := by
    apply overall_result_of_finished
    · exact hfin
    · exact hpass
  constructor
  · intro hnf
    simp only [ReadBuildColumn, hrun, Bool.false_eq_true, if_false]
    rw [if_pos ⟨hor, hnf⟩]
    obtain ⟨w, acc2, hshape⟩ := mergedRows_shape artifactRows (gs "Overall")
      (readBuildOverall now baseId started finished) [] []
    have hshape2 : readBuildMergedRows now baseId started finished
        artifactRows =
        (gs "Overall", readBuildOverall now baseId started finished :: w)
          :: acc2 := hshape
    rw [hshape2]
    refine ⟨w, amendOverall acc2, ?_⟩
    simp only [amendOverall, List.map_cons]
    rw [if_pos (by rfl)]
  · intro hf
    simp only [ReadBuildColumn, hrun, Bool.false_eq_true, if_false]
    rw [if_neg]
    intro hcon
    rw [hcon.2] at hf
    exact Bool.false_ne_true hf

/-- Concrete witness for `C8_fail_without_tests`: a failed build with no
JUnit rows gets the amended Overall row. -/
theorem C8_fail_without_tests_witness :
    ({ Timestamp := 9, Passed := false, JobVersion := [], Metadata := [],
       running := false : Finished }).running = false ∧
    (0 : Int) < 9 ∧
    (∃ w acc,
      (ReadBuildColumn 1000 (gs "5")
        { Timestamp := 2, RepoVersion := [], Node := [], Pull := [],
          Repos := [] }
        { Timestamp := 9, Passed := false, JobVersion := [], Metadata := [],
          running := false }
        []).Rows =
        (gs "Overall",
          { readBuildOverall 1000 (gs "5")
              { Timestamp := 2, RepoVersion := [], Node := [], Pull := [],
                Repos := [] }
              { Timestamp := 9, Passed := false, JobVersion := [],
                Metadata := [], running := false } with
              Icon := gs "F",
              Message := gs "Build failed outside of test results" } :: w)
          :: acc) := by
  refine ⟨rfl, by decide, ?_⟩
  exact (C8_fail_without_tests 1000 (gs "5")
    { Timestamp := 2, RepoVersion := [], Node := [], Pull := [], Repos := [] }
    { Timestamp := 9, Passed := false, JobVersion := [], Metadata := [],
      running := false }
    [] rfl (by decide) rfl).1 (by decide)

/-! ## Header values of a column record (AppendColumn, header loop) -/

/-- `strings.SplitN(s, sep, 2)`: split around the first instance of `sep`
into at most two parts. -/
def splitN2 (s : GoStr) (sep : Char) : List GoStr :=
  let pre := s.takeWhile fun c => c != sep
  if pre.length = s.length then [s]
  else [pre, s.drop (pre.length + 1)]

/-- The body of the header loop in `AppendColumn` for one header `h`:
unfinished builds record `""`; the `"Commit"` header is rewritten to key
`repo-commit` with truncation 9 and alternate key `job-version` (whose value
is cut after its first `+`); a missing key with no alternate records
`"missing"`. -/
def headerValue (build : Column) (h : GoStr) : GoStr :=
  if build.Finished == 0 then []
  else
    let special := h == gs "Commit"
    let key := if special then gs "repo-commit" else h
    let trunc : Nat := if special then 9 else 0
    let ah := if special then gs "job-version" else []
    let v : GoStr :=
      match lookupAssoc build.Metadata key with
      | some v => v
      | none =>
          if ah = [] then gs "missing"
          else
            match lookupAssoc build.Metadata ah with
            | some av =>
                let parts := splitN2 av '+'
                parts.getD (parts.length - 1) []
            | none => []
    if 0 < trunc ∧ trunc < v.length then v.take trunc else v

/-- The suffix of `s` after the first occurrence of `a` (all of `s` when `a`
does not occur): the spec-level description of what
`SplitN(s, a, 2)[len-1]` yields. -/
def afterFirst (a : Char) (s : GoStr) : GoStr :=
  if s.contains a then (s.dropWhile fun c => c != a).drop 1 else s

theorem takeWhile_bne_length_eq_iff (a : Char) :
    ∀ s : GoStr,
      ((s.takeWhile fun c => c != a).length = s.length) ↔
        s.contains a = false
  | [] => by simp
  | c :: rest => by
      by_cases hc : c = a
      · subst hc
        simp
      · have hcc : (c != a) = true := by
          simp [bne_iff_ne]
          exact hc
        have hac : (a == c) = false := by
          rw [beq_eq_false_iff_ne]
          exact Ne.symm hc
        simp only [List.takeWhile_cons, hcc, if_true, List.length_cons,
          List.contains_cons, hac, Bool.false_or]
        rw [← takeWhile_bne_length_eq_iff a rest]
        omega

theorem dropWhile_bne_eq_drop (a : Char) :
    ∀ s : GoStr,
      (s.dropWhile fun c => c != a) =
        s.drop (s.takeWhile fun c => c != a).length
  | [] => by simp
  | c :: rest => by
      by_cases hc : c = a
      · subst hc
        simp
      · have hcc : (c != a) = true := by
          simp [bne_iff_ne]
          exact hc
        simp only [List.dropWhile_cons, List.takeWhile_cons, hcc, if_true,
          List.length_cons, List.drop_succ_cons]
        exact dropWhile_bne_eq_drop a rest

theorem splitN2_last (a : Char) (s : GoStr) :
    (splitN2 s a).getD ((splitN2 s a).length - 1) [] = afterFirst a s := by
  rw [splitN2, afterFirst]
  by_cases h : (s.takeWhile fun c => c != a).length = s.length
  · rw [if_pos h, ((takeWhile_bne_length_eq_iff a s).mp h)]
    simp
  · rw [if_neg h]
    have hcont : s.contains a = true := by
      rcases Bool.eq_false_or_eq_true (s.contains a) with ht | hf
      · exact ht
      · exact absurd ((takeWhile_bne_length_eq_iff a s).mpr hf) h
    rw [hcont, if_pos rfl, dropWhile_bne_eq_drop, List.drop_drop]
    simp only [List.length_cons, List.length_nil]
    rfl

theorem splitN2_last_getElem (a : Char) (s : GoStr) :
    ((splitN2 s a)[(splitN2 s a).length - 1]?).getD [] = afterFirst a s := by
  rw [← splitN2_last a s, List.getD_eq_getElem?_getD]

/-- C5 counterexample: with `repo-commit` absent and
`job-version = "v1+abc+def"`, the code records the suffix after the *first*
`+` (`"abc+def"`), not the suffix after the last `+` (`"def"`) that the
claim predicts. -/
theorem C5_commit_header_counterexample :
    headerValue
      { Id := gs "b", Started := 0, Finished := 7, Passed := true,
        Rows := [],
        Metadata := [(gs "job-version", gs "v1+abc+def")] }
      (gs "Commit") = gs "abc+def" ∧
    gs "abc+def" ≠ gs "def" := by
  constructor
  · decide
  · decide

/-- C5 (amended): for a finished build, header `"Commit"` is looked up as
metadata key `repo-commit`, truncated to 9 characters when longer; with
`repo-commit` absent the value falls back to the suffix of `job-version`
after its *first* `+` (`strings.SplitN(av, "+", 2)`), likewise truncated to
9 characters when longer; a non-`"Commit"` header whose key is absent (no
alternate key) records `"missing"`. -/
theorem C5_commit_header (build : Column) (hfin : build.Finished ≠ 0) :
    (∀ v, lookupAssoc build.Metadata (gs "repo-commit") = some v →
      headerValue build (gs "Commit") =
        (if 9 < v.length then v.take 9 else v)) ∧
    (∀ av, lookupAssoc build.Metadata (gs "repo-commit") = none →
      lookupAssoc build.Metadata (gs "job-version") = some av →
      headerValue build (gs "Commit") =
        (if 9 < (afterFirst '+' av).length then (afterFirst '+' av).take 9
         else afterFirst '+' av)) ∧
    (∀ h, h ≠ gs "Commit" → lookupAssoc build.Metadata h = none →
      headerValue build h = gs "missing") := by
  have hfinb : (build.Finished == 0) = false := by
    simp [hfin]
  refine ⟨?_, ?_, ?_⟩
  · intro v hv
    simp [headerValue, hfinb, hv]
  · intro av hnone hav
    simp [headerValue, hfinb, hnone, hav, splitN2_last, splitN2_last_getElem,
      (by decide : gs "job-version" ≠ ([] : GoStr))]
  · intro h hne hnone
    have hsp : (h == gs "Commit") = false := by
      rw [beq_eq_false_iff_ne]
      exact hne
    simp [headerValue, hfinb, hsp, hnone]

/-- Concrete witness for `C5_commit_header`: all three branches on concrete
builds. -/
theorem C5_commit_header_witness :
    ((7 : Int) ≠ 0 ∧
      lookupAssoc [(gs "repo-commit", gs "0123456789ab")]
        (gs "repo-commit") = some (gs "0123456789ab") ∧
      headerValue
        { Id := gs "b", Started := 0, Finished := 7, Passed := true,
          Rows := [], Metadata := [(gs "repo-commit", gs "0123456789ab")] }
        (gs "Commit") = gs "012345678") ∧
    ((7 : Int) ≠ 0 ∧
      headerValue
        { Id := gs "b", Started := 0, Finished := 7, Passed := true,
          Rows := [], Metadata := [(gs "job-version", gs "v1+abc")] }
        (gs "Commit") = gs "abc") ∧
    ((7 : Int) ≠ 0 ∧
      headerValue
        { Id := gs "b", Started := 0, Finished := 7, Passed := true,
          Rows := [], Metadata := [] }
        (gs "Flake rate") = gs "missing") := by
  refine ⟨⟨by decide, by decide, ?_⟩, ⟨by decide, ?_⟩, ⟨by decide, ?_⟩⟩
  · rw [(C5_commit_header
      { Id := gs "b", Started := 0, Finished := 7, Passed := true,
        Rows := [], Metadata := [(gs "repo-commit", gs "0123456789ab")] }
      (by decide)).1 (gs "0123456789ab") (by decide)]
    decide
  · rw [(C5_commit_header
      { Id := gs "b", Started := 0, Finished := 7, Passed := true,
        Rows := [], Metadata := [(gs "job-version", gs "v1+abc")] }
      (by decide)).2.1 (gs "v1+abc") (by decide) (by decide)]
    decide
  · exact (C5_commit_header
      { Id := gs "b", Started := 0, Finished := 7, Passed := true,
        Rows := [], Metadata := [] }
      (by decide)).2.2 (gs "Flake rate") (by decide) (by decide)

/-! ## Name formatting and duplicate disambiguation -/

/-- Decimal digits of `n` (most significant first), by fuelled recursion so
that the kernel can evaluate it. -/
def natCharsAux : Nat → Nat → GoStr
  | 0, _ => []
  | _ + 1, 0 => []
  | fuel + 1, n + 1 =>
      natCharsAux fuel ((n + 1) / 10) ++ [Nat.digitChar ((n + 1) % 10)]

/-- Decimal representation of a natural number, as `fmt`'s `%d` renders a
non-negative integer. -/
def natChars (n : Nat) : GoStr :=
  if n = 0 then ['0'] else natCharsAux (n + 1) n

/-- Value of a decimal digit string (left inverse of `natChars`). -/
def charsVal (s : GoStr) : Nat :=
  s.foldl (fun a c => a * 10 + (c.toNat - 48)) 0

theorem charsVal_append_one (l : GoStr) (d : Char) :
    charsVal (l ++ [d]) = charsVal l * 10 + (d.toNat - 48) := by
  simp [charsVal, List.foldl_append]

theorem digitChar_toNat_sub (m : Nat) (h : m < 10) :
    (Nat.digitChar m).toNat - 48 = m := by
  interval_cases m <;> decide

theorem charsVal_natCharsAux :
    ∀ fuel n, n < fuel → charsVal (natCharsAux fuel n) = n
  | 0, n, h => absurd h (by omega)
  | fuel + 1, 0, _ => by simp [natCharsAux, charsVal]
  | fuel + 1, n + 1, h => by
      rw [natCharsAux, charsVal_append_one,
        charsVal_natCharsAux fuel ((n + 1) / 10) (by omega),
        digitChar_toNat_sub ((n + 1) % 10) (by omega)]
      omega

theorem charsVal_natChars (n : Nat) : charsVal (natChars n) = n := by
  rw [natChars]
  by_cases h : n = 0
  · subst h
    decide
  · rw [if_neg h]
    exact charsVal_natCharsAux (n + 1) n (by omega)

theorem natChars_injective : Function.Injective natChars := by
  intro a b hab
  have ha := charsVal_natChars a
  rw [hab, charsVal_natChars] at ha
  exact ha.symm

theorem natChars_length_pos (n : Nat) : 0 < (natChars n).length := by
  rw [natChars]
  by_cases h : n = 0
  · simp [h]
  · rw [if_neg h]
    cases n with
    | zero => exact absurd rfl h
    | succ m =>
        rw [natCharsAux]
        simp

/-- `fmt.Sprintf("%s [%d]", prefix, idx)` with the literal format string of
the duplicate-name loop in `AppendColumn`. -/
def dupName (base : GoStr) (i : Nat) : GoStr :=
  base ++ (' ' :: '[' :: natChars i) ++ [']']

theorem dupName_inj (base : GoStr) {i j : Nat}
    (h : dupName base i = dupName base j) : i = j := by
  rw [dupName, dupName] at h
  have h1 := List.append_cancel_right h
  have h2 := List.append_cancel_left h1
  have h3 : natChars i = natChars j := by
    simpa using h2
  exact natChars_injective h3

theorem dupName_ne_base (base : GoStr) (i : Nat) : dupName base i ≠ base := by
  intro h
  have hlen := congrArg List.length h
  simp only [dupName, List.length_append, List.length_cons,
    List.length_nil] at hlen
  have := natChars_length_pos i
  omega

/-- The `for idx := 1; found[name]; idx++` loop: the first of `prefix`,
`prefix [1]`, `prefix [2]`, ... not in `found`.  The candidate list is one
longer than `found` and duplicate-free, so the search cannot fail; the `[]`
default is unreachable. -/
def freshName (base : GoStr) (found : List GoStr) : GoStr :=
  ((base :: (List.range (found.length + 1)).map fun i => dupName base (i + 1)).find?
      fun n => !(decide (n ∈ found))).getD []

theorem freshName_not_mem (base : GoStr) (found : List GoStr) :
    freshName base found ∉ found := by
  rw [freshName]
  rcases hf : (base :: (List.range (found.length + 1)).map
      fun i => dupName base (i + 1)).find? (fun n => !(decide (n ∈ found)))
    with _ | n
  · exfalso
    have hall := List.find?_eq_none.mp hf
    have hsub : (base :: (List.range (found.length + 1)).map
        fun i => dupName base (i + 1)) ⊆ found := by
      intro x hx
      have hx2 := hall x hx
      simp only [Bool.not_eq_true', decide_eq_false_iff_not,
        Decidable.not_not] at hx2
      exact hx2
    have hnodup : (base :: (List.range (found.length + 1)).map
        fun i => dupName base (i + 1)).Nodup := by
      refine List.nodup_cons.mpr ⟨?_, ?_⟩
      · intro hmem
        obtain ⟨i, _, hi⟩ := List.mem_map.mp hmem
        exact dupName_ne_base base (i + 1) hi
      · refine List.Nodup.map ?_ (List.nodup_range _)
        intro i j hij
        have := dupName_inj base hij
        omega
    have hle := (List.subperm_of_subset hnodup hsub).length_le
    simp at hle
    omega
  · have hp := List.find?_some hf
    simp only [Bool.not_eq_true', decide_eq_false_iff_not] at hp
    simpa using hp

/-- `fmt.Sprintf` restricted to the `%s` verb over string arguments and the
`%%` escape — the only verbs row-name formats use (the default format is
`"%s"`).  Other verb characters are copied verbatim; a `%s` with no argument
left renders Go's `%!s(MISSING)`. -/
def sprintf : GoStr → List GoStr → GoStr
  | [], _ => []
  | '%' :: 's' :: rest, a :: args => a ++ sprintf rest args
  | '%' :: 's' :: rest, [] => gs "%!s(MISSING)" ++ sprintf rest []
  | '%' :: '%' :: rest, args => '%' :: sprintf rest args
  | c :: rest, args => c :: sprintf rest args

/-- `type NameConfig`. -/
structure NameConfig where
  format : GoStr
  parts : List GoStr
  deriving DecidableEq, Repr

/-- `config.TestNameConfig`: the format string and the `TargetConfig` of
each name element. -/
structure TestNameConfig where
  NameFormat : GoStr
  NameElements : List GoStr
  deriving DecidableEq, Repr

/-- `MakeNameConfig`. -/
def MakeNameConfig : Option TestNameConfig → NameConfig
  | none => { format := gs "%s", parts := [gs "Tests name"] }
  | some tnc => { format := tnc.NameFormat, parts := tnc.NameElements }

/-- `Row.Format`: each configured part resolves to the row's metadata value,
else the column's metadata value, else `""`; the results are formatted. -/
def Row.Format (r : Row) (config : NameConfig)
    (meta : List (GoStr × GoStr)) : GoStr :=
  sprintf config.format (config.parts.map fun p =>
    match lookupAssoc r.Metadata p with
    | some v => v
    | none => (lookupAssoc meta p).getD [])

/-! ## The grid assembler (AppendColumn) -/

/-- Apply `f` to the row named `name`; the Go code mutates that row through
the pointer shared by the `rows` map and `grid.Rows`. -/
def updateRow (rows : List StateRow) (name : GoStr)
    (f : StateRow → StateRow) : List StateRow :=
  rows.map fun r => if r.Name == name then f r else r

/-- Update the first metric with the given name (`FindMetric` returns the
first match and `AppendMetric` mutates it in place). -/
def updateFirstMetric : List StateMetric → GoStr →
    (StateMetric → StateMetric) → List StateMetric
  | [], _, _ => []
  | m :: rest, k, f =>
      if m.Name == k then f m :: rest else m :: updateFirstMetric rest k f

/-- One step of the metric merge loop: find or create the metric named
`kv.1`, then `AppendMetric(m, int32(len(r.Messages)), v)`. -/
def metricStep (r : StateRow) (kv : GoStr × Int) : StateRow :=
  if r.Metrics.any fun m => m.Name == kv.1 then
    let ms := updateFirstMetric r.Metrics kv.1
      (fun m => AppendMetric m (r.Messages.length : Int) kv.2)
    { r with Metrics := ms }
  else
    let m0 : StateMetric := { Name := kv.1, Indices := [], Values := [] }
    let ms := r.Metrics ++ [AppendMetric m0 (r.Messages.length : Int) kv.2]
    { r with Metrics := ms }

/-- The `for k, v := range br.Metrics` loop after `AppendResult(r, br, 1)`.
Go map order is arbitrary; it only affects the order of `r.Metrics`, which
no claim observes. -/
def addRowMetrics (r : StateRow) : List (GoStr × Int) → StateRow
  | [] => r
  | kv :: rest => addRowMetrics (metricStep r kv) rest

/-- Mutable state of the row-processing loops inside `AppendColumn`: the row
store (also aliased by `grid.Rows`), the per-column `found` set, and the
shrinking `missing` set (modelled by the list of its keys). -/
structure AcState where
  rows : List StateRow
  found : List GoStr
  missing : List GoStr

/-- What `appendRecord` does to the row it addresses:
`AppendResult(r, br, 1)` followed by the metric merge loop. -/
def recordF (br : Row) (r : StateRow) : StateRow :=
  addRowMetrics (AppendResult r br 1) br.Metrics

/-- The freshly created row of `appendRecord`: `&state.Row{Name, Id}`,
back-padded with `n−1` NO_RESULT cells when the grid already has `n > 1`
columns (the current column included). -/
def newRow (name target : GoStr) (ncols : Nat) : StateRow :=
  let r0 : StateRow :=
    { Name := name, Id := target, Results := [], CellIds := [],
      Messages := [], Icons := [], Metrics := [] }
  if 1 < ncols then AppendResult r0 noResultRow (ncols - 1) else r0

/-- The body of `for target, results := range build.Rows { for _, br := ... }`
for a single row record `br`: format and disambiguate the name, create the
row if new, append the result with count 1, and merge the metrics.  `ncols`
is `len(grid.Columns)` after the current column was appended. -/
def appendRecord (format : NameConfig) (buildMeta : List (GoStr × GoStr))
    (ncols : Nat) (target : GoStr) (br : Row) (s : AcState) : AcState :=
  let base := br.Format format buildMeta
  let name := freshName base s.found
  let found2 := s.found ++ [name]
  let missing2 := s.missing.filter fun m => m != name
  let rows2 :=
    if s.rows.any fun r => r.Name == name then s.rows
    else s.rows ++ [newRow name target ncols]
  { rows := updateRow rows2 name (recordF br),
    found := found2, missing := missing2 }

/-- The column record `AppendColumn` pushes onto `grid.Columns`. -/
def mkStateColumn (headers : List GoStr) (build : Column) : StateColumn :=
  { Build := build.Id, Started := build.Started * 1000,
    Extra := headers.map (headerValue build) }

/-- `AppendColumn`: push the column record, process every row record of the
build (Go iterates the `build.Rows` map in arbitrary order; the association
list fixes one order), then give every remaining missing row one NO_RESULT
cell. -/
def AppendColumn (headers : List GoStr) (format : NameConfig) (grid : Grid)
    (build : Column) : Grid :=
  let cols2 := grid.Columns ++ [mkStateColumn headers build]
  let s0 : AcState :=
    { rows := grid.Rows, found := [],
      missing := grid.Rows.map StateRow.Name }
  let s1 := build.Rows.foldl
    (fun s p => p.2.foldl
      (fun s br => appendRecord format build.Metadata cols2.length p.1 br s)
      s)
    s0
  let rows3 := s1.missing.foldl
    (fun rows name => updateRow rows name
      fun r => AppendResult r noResultRow 1)
    s1.rows
  { Columns := cols2, Rows := rows3 }

/-- The column-feeding loop at the end of `ReadBuilds` (lines 1436–1451):
iterate the slot array in index order, skip empty slots, append each column
to the grid, and break right after appending the first column with
`Started < stop` (`stop` is `now − dur` in Unix seconds).  The final stable
row sort is outside the loop and does not change `Columns`. -/
def feedColumns (stop : Int) (headers : List GoStr) (format : NameConfig)
    (grid : Grid) : List (Option Column) → Grid
  | [] => grid
  | none :: rest => feedColumns stop headers format grid rest
  | some c :: rest =>
      let grid2 := AppendColumn headers format grid c
      if c.Started < stop then grid2
      else feedColumns stop headers format grid2 rest

/-- Reference description of the columns the feed loop appends: the
non-empty slots in index order up to and including the first column with
`Started < stop`. -/
def stopTake (stop : Int) : List Column → List Column
  | [] => []
  | c :: rest => if c.Started < stop then [c] else c :: stopTake stop rest

theorem appendColumn_Columns (headers : List GoStr) (format : NameConfig)
    (grid : Grid) (build : Column) :
    (AppendColumn headers format grid build).Columns =
      grid.Columns ++ [mkStateColumn headers build] := rfl

theorem feedColumns_Columns (stop : Int) (headers : List GoStr)
    (format : NameConfig) :
    ∀ (cols : List (Option Column)) (grid : Grid),
      (feedColumns stop headers format grid cols).Columns =
        grid.Columns ++
          (stopTake stop (cols.filterMap id)).map (mkStateColumn headers)
  | [], grid => by simp [feedColumns, stopTake]
  | none :: rest, grid => by
      simp only [feedColumns, List.filterMap_cons, id]
      exact feedColumns_Columns stop headers format rest grid
  | some c :: rest, grid => by
      simp only [feedColumns, List.filterMap_cons, id]
      by_cases hc : c.Started < stop
      · rw [if_pos hc, appendColumn_Columns]
        simp [stopTake, hc]
      · rw [if_neg hc, feedColumns_Columns stop headers format rest,
          appendColumn_Columns]
        simp [stopTake, hc]

theorem stopTake_eq (stop : Int) :
    ∀ l : List Column,
      stopTake stop l =
        (l.takeWhile fun c => !(decide (c.Started < stop))) ++
          (l.dropWhile fun c => !(decide (c.Started < stop))).take 1
  | [] => by simp [stopTake]
  | c :: rest => by
      by_cases hc : c.Started < stop
      · simp [stopTake, hc, List.takeWhile_cons, List.dropWhile_cons]
      · simp only [stopTake, hc, if_false, List.takeWhile_cons,
          List.dropWhile_cons, decide_eq_true_eq]
        simp [hc, stopTake_eq stop rest]

/-- C3: the assembly loop of `ReadBuilds` feeds the non-empty column slots
into `AppendColumn` in slot-index order, keeps every column newer than
`stop = now − window`, appends the first column with `Started < stop`, and
appends nothing after it (the take/dropWhile characterization).  Concretely,
for ten builds whose `started` timestamps step down one hour each (the
newest one hour before `now = 0`) and a 3-hour window, the grid has exactly
4 columns even though all ten slots were filled. -/
theorem C3_feed_assembly (stop : Int) (headers : List GoStr)
    (format : NameConfig) (cols : List (Option Column)) :
    (feedColumns stop headers format
        { Columns := [], Rows := [] } cols).Columns =
      (stopTake stop (cols.filterMap id)).map (mkStateColumn headers) ∧
    stopTake stop (cols.filterMap id) =
      ((cols.filterMap id).takeWhile fun c => !(decide (c.Started < stop))) ++
        ((cols.filterMap id).dropWhile
          fun c => !(decide (c.Started < stop))).take 1 ∧
    (feedColumns (-10800) [] (MakeNameConfig none)
        { Columns := [], Rows := [] }
        ((List.range 10).map fun i =>
          some { Id := natChars (10 - i), Started := -3600 * ((i : Int) + 1),
                 Finished := 1, Passed := true, Rows := [],
                 Metadata := [] })).Columns.length = 4 :=
  ⟨by rw [feedColumns_Columns]; simp, stopTake_eq stop _, by decide⟩

/-! ## Grid invariants (rows vs. columns) -/

/-- Per-row well-formedness at a grid with `cols` columns: even RLE results
list, total cell count and cell-id count equal to the column count, and
message and icon counts equal to the number of non-NO_RESULT cells. -/
def RowStateInv (cols : Nat) (r : StateRow) : Prop :=
  r.Results.length % 2 = 0 ∧
  rleCellCount r.Results = (cols : Int) ∧
  r.CellIds.length = cols ∧
  (r.Messages.length : Int) = rleLiveCount r.Results ∧
  r.Icons.length = r.Messages.length

theorem rowStateInv_appendResult {k : Nat} {r : StateRow} (res : Row)
    (count : Nat) (h : RowStateInv k r) :
    RowStateInv (k + count) (AppendResult r res count) := by
  obtain ⟨he, hc, hcid, hm, hi⟩ := h
  obtain ⟨he2, hc2, hl2⟩ := appendResult_counts r res count he
  refine ⟨he2, ?_, ?_, ?_, ?_⟩
  · rw [hc2, hc]
    push_cast
    ring
  · rw [appendResult_CellIds]
    simp [hcid]
  · rw [appendResult_Messages, hl2, ← hm]
    by_cases hz : res.Result = RowResult.noResult
    · simp [hz]
    · simp only [hz, if_false, List.length_append, List.length_replicate]
      push_cast
      ring
  · rw [appendResult_Icons, appendResult_Messages]
    by_cases hz : res.Result = RowResult.noResult
    · simp [hz, hi]
    · simp [hz, hi]

theorem metricStep_fields (r : StateRow) (kv : GoStr × Int) :
    (metricStep r kv).Name = r.Name ∧ (metricStep r kv).Results = r.Results ∧
    (metricStep r kv).CellIds = r.CellIds ∧
    (metricStep r kv).Messages = r.Messages ∧
    (metricStep r kv).Icons = r.Icons := by
  rw [metricStep]
  split
  · exact ⟨rfl, rfl, rfl, rfl, rfl⟩
  · exact ⟨rfl, rfl, rfl, rfl, rfl⟩

theorem addRowMetrics_fields :
    ∀ (ms : List (GoStr × Int)) (r : StateRow),
      (addRowMetrics r ms).Name = r.Name ∧
      (addRowMetrics r ms).Results = r.Results ∧
      (addRowMetrics r ms).CellIds = r.CellIds ∧
      (addRowMetrics r ms).Messages = r.Messages ∧
      (addRowMetrics r ms).Icons = r.Icons
  | [], r => ⟨rfl, rfl, rfl, rfl, rfl⟩
  | kv :: rest, r => by
      have h1 := metricStep_fields r kv
      have h2 := addRowMetrics_fields rest (metricStep r kv)
      rw [addRowMetrics]
      exact ⟨h2.1.trans h1.1, h2.2.1.trans h1.2.1,
        h2.2.2.1.trans h1.2.2.1, h2.2.2.2.1.trans h1.2.2.2.1,
        h2.2.2.2.2.trans h1.2.2.2.2⟩

theorem rowStateInv_addRowMetrics {k : Nat} {r : StateRow}
    (ms : List (GoStr × Int)) (h : RowStateInv k r) :
    RowStateInv k (addRowMetrics r ms) := by
  obtain ⟨f1, f2, f3, f4, f5⟩ := addRowMetrics_fields ms r
  obtain ⟨h1, h2, h3, h4, h5⟩ := h
  refine ⟨?_, ?_, ?_, ?_, ?_⟩
  · rw [f2]; exact h1
  · rw [f2]; exact h2
  · rw [f3]; exact h3
  · rw [f4, f2]; exact h4
  · rw [f5, f4]; exact h5

theorem recordF_name (br : Row) (r : StateRow) :
    (recordF br r).Name = r.Name := by
  rw [recordF]
  exact (addRowMetrics_fields br.Metrics _).1.trans (appendResult_Name r br 1)

theorem recordF_inv {k : Nat} (br : Row) {r : StateRow}
    (h : RowStateInv k r) : RowStateInv (k + 1) (recordF br r) := by
  rw [recordF]
  exact rowStateInv_addRowMetrics br.Metrics (rowStateInv_appendResult br 1 h)

theorem updateRow_map_name (rows : List StateRow) (name : GoStr)
    (f : StateRow → StateRow) (hf : ∀ r, (f r).Name = r.Name) :
    (updateRow rows name f).map StateRow.Name = rows.map StateRow.Name := by
  induction rows with
  | nil => rfl
  | cons a l ih =>
      simp only [updateRow, List.map_cons] at ih ⊢
      rw [ih]
      by_cases ha : (a.Name == name) = true
      · rw [if_pos ha, hf a]
      · rw [if_neg ha]

theorem newRow_name (name target : GoStr) (ncols : Nat) :
    (newRow name target ncols).Name = name := by
  rw [newRow]
  by_cases h1 : 1 < ncols
  · rw [if_pos h1, appendResult_Name]
  · rw [if_neg h1]

theorem newRow_inv (name target : GoStr) (ncols : Nat) (hcols : 1 ≤ ncols) :
    RowStateInv (ncols - 1) (newRow name target ncols) := by
  have h0 : RowStateInv 0
      { Name := name, Id := target, Results := [], CellIds := [],
        Messages := [], Icons := [], Metrics := [] } := by
    refine ⟨rfl, rfl, rfl, rfl, rfl⟩
  rw [newRow]
  by_cases h1 : 1 < ncols
  · rw [if_pos h1]
    have h2 := rowStateInv_appendResult noResultRow (ncols - 1) h0
    simpa using h2
  · rw [if_neg h1]
    have : ncols - 1 = 0 := by omega
    rw [this]
    exact h0

/-- Invariant of the row-processing loop state inside `AppendColumn`, at a
grid whose `Columns` already include the current column (`cols` many): row
names are unique; `missing` holds, exactly once each, names of rows not yet
touched this column (still at `cols − 1` cells); rows whose name is in
`found` already carry their cell for this column. -/
def MidInv (cols : Nat) (s : AcState) : Prop :=
  (s.rows.map StateRow.Name).Nodup ∧
  s.missing.Nodup ∧
  (∀ n ∈ s.missing, n ∈ s.rows.map StateRow.Name ∧ n ∉ s.found) ∧
  (∀ r ∈ s.rows,
    (r.Name ∈ s.found → RowStateInv cols r) ∧
    (r.Name ∉ s.found → RowStateInv (cols - 1) r ∧ r.Name ∈ s.missing))

theorem appendRecord_inv (format : NameConfig)
    (buildMeta : List (GoStr × GoStr)) (cols : Nat) (hcols : 1 ≤ cols)
    (target : GoStr) (br : Row) (s : AcState) (h : MidInv cols s) :
    MidInv cols (appendRecord format buildMeta cols target br s) := by
  obtain ⟨hnod, hmnod, hmiss, hrows⟩ := h
  have hnf := freshName_not_mem (br.Format format buildMeta) s.found
  have hFinv : ∀ r : StateRow, RowStateInv (cols - 1) r →
      RowStateInv cols (recordF br r) := by
    intro r hr
    have h2 := recordF_inv br hr
    rwa [Nat.sub_add_cancel hcols] at h2
  simp only [appendRecord]
  set name := freshName (br.Format format buildMeta) s.found with hname
  by_cases hex : (s.rows.any fun r => r.Name == name) = true
  · rw [if_pos hex]
    refine ⟨?_, ?_, ?_, ?_⟩
    · rw [updateRow_map_name _ _ _ (recordF_name br)]
      exact hnod
    · exact List.Nodup.filter _ hmnod
    · intro n hn
      have hn2 := List.mem_filter.mp hn
      have hne : n ≠ name := by
        have := hn2.2
        simpa [bne_iff_ne] using this
      obtain ⟨hmem, hnotf⟩ := hmiss n hn2.1
      refine ⟨?_, ?_⟩
      · rw [updateRow_map_name _ _ _ (recordF_name br)]
        exact hmem
      · simp only [List.mem_append, List.mem_singleton]
        rintro (hc | hc)
        · exact hnotf hc
        · exact hne hc
    · intro r' hr'
      simp only [updateRow, List.mem_map] at hr'
      obtain ⟨r, hrmem, hreq⟩ := hr'
      by_cases hrn : (r.Name == name) = true
      · have hrn2 : r.Name = name := by simpa using hrn
        rw [if_pos hrn] at hreq
        have hpre : RowStateInv (cols - 1) r := by
          have := (hrows r hrmem).2 (by rw [hrn2]; exact hnf)
          exact this.1
        have hpost : RowStateInv cols r' := by
          rw [← hreq]
          exact hFinv r hpre
        have hr'name : r'.Name = name := by
          rw [← hreq, recordF_name, hrn2]
        refine ⟨fun _ => hpost, fun hc => ?_⟩
        exfalso
        apply hc
        rw [hr'name]
        simp
      · rw [if_neg hrn] at hreq
        have hrn2 : r.Name ≠ name := by simpa using hrn
        subst hreq
        constructor
        · intro hf2
          simp only [List.mem_append, List.mem_singleton] at hf2
          rcases hf2 with hf2 | hf2
          · exact (hrows r hrmem).1 hf2
          · exact absurd hf2 hrn2
        · intro hf2
          have hnotf : r.Name ∉ s.found := by
            intro hc
            exact hf2 (by simp [hc])
          obtain ⟨hinv, hm⟩ := (hrows r hrmem).2 hnotf
          refine ⟨hinv, ?_⟩
          exact List.mem_filter.mpr ⟨hm, by simpa [bne_iff_ne] using hrn2⟩
  · rw [if_neg hex]
    have hnotrow : ∀ r ∈ s.rows, r.Name ≠ name := by
      intro r hrmem hc
      apply hex
      rw [List.any_eq_true]
      exact ⟨r, hrmem, by simp [hc]⟩
    refine ⟨?_, ?_, ?_, ?_⟩
    · rw [updateRow_map_name _ _ _ (recordF_name br)]
      simp only [List.map_append, List.map_cons, List.map_nil]
      rw [List.nodup_append]
      refine ⟨hnod, by simp [newRow_name], ?_⟩
      intro a ha hb
      simp only [newRow_name, List.mem_singleton] at hb
      obtain ⟨r, hrmem, hreq⟩ := List.mem_map.mp ha
      exact hnotrow r hrmem (by rw [hreq, hb])
    · exact List.Nodup.filter _ hmnod
    · intro n hn
      have hn2 := List.mem_filter.mp hn
      have hne : n ≠ name := by
        have := hn2.2
        simpa [bne_iff_ne] using this
      obtain ⟨hmem, hnotf⟩ := hmiss n hn2.1
      refine ⟨?_, ?_⟩
      · rw [updateRow_map_name _ _ _ (recordF_name br)]
        simp only [List.map_append]
        exact List.mem_append_left _ hmem
      · simp only [List.mem_append, List.mem_singleton]
        rintro (hc | hc)
        · exact hnotf hc
        · exact hne hc
    · intro r' hr'
      simp only [updateRow, List.mem_map] at hr'
      obtain ⟨r, hrmem, hreq⟩ := hr'
      rw [List.mem_append, List.mem_singleton] at hrmem
      rcases hrmem with hrmem | hrmem
      · have hrn : (r.Name == name) = false := by
          simp [hnotrow r hrmem]
        rw [hrn] at hreq
        simp only [Bool.false_eq_true, if_false] at hreq
        subst hreq
        constructor
        · intro hf2
          simp only [List.mem_append, List.mem_singleton] at hf2
          rcases hf2 with hf2 | hf2
          · exact (hrows r hrmem).1 hf2
          · exact absurd hf2 (hnotrow r hrmem)
        · intro hf2
          have hnotf : r.Name ∉ s.found := by
            intro hc
            exact hf2 (by simp [hc])
          obtain ⟨hinv, hm⟩ := (hrows r hrmem).2 hnotf
          refine ⟨hinv, ?_⟩
          exact List.mem_filter.mpr
            ⟨hm, by simpa [bne_iff_ne] using hnotrow r hrmem⟩
      · rw [hrmem] at hreq
        have hrn : ((newRow name target cols).Name == name) = true := by
          simp [newRow_name]
        rw [hrn] at hreq
        simp only [if_true] at hreq
        have hpost : RowStateInv cols r' := by
          rw [← hreq]
          exact hFinv _ (newRow_inv name target cols hcols)
        have hr'name : r'.Name = name := by
          rw [← hreq, recordF_name, newRow_name]
        refine ⟨fun _ => hpost, fun hc => ?_⟩
        exfalso
        apply hc
        rw [hr'name]
        simp

theorem foldRecords_inv (format : NameConfig)
    (buildMeta : List (GoStr × GoStr)) (cols : Nat) (hcols : 1 ≤ cols)
    (target : GoStr) :
    ∀ (rs : List Row) (s : AcState), MidInv cols s →
      MidInv cols (rs.foldl
        (fun s br => appendRecord format buildMeta cols target br s) s)
  | [], _, h => h
  | br :: rest, s, h => by
      rw [List.foldl_cons]
      exact foldRecords_inv format buildMeta cols hcols target rest _
        (appendRecord_inv format buildMeta cols hcols target br s h)

theorem foldBuildRows_inv (format : NameConfig)
    (buildMeta : List (GoStr × GoStr)) (cols : Nat) (hcols : 1 ≤ cols) :
    ∀ (brs : List (GoStr × List Row)) (s : AcState), MidInv cols s →
      MidInv cols (brs.foldl
        (fun s p => p.2.foldl
          (fun s br => appendRecord format buildMeta cols p.1 br s) s) s)
  | [], _, h => h
  | p :: rest, s, h => by
      rw [List.foldl_cons]
      exact foldBuildRows_inv format buildMeta cols hcols rest _
        (foldRecords_inv format buildMeta cols hcols p.1 p.2 s h)

theorem missingPass_inv (cols : Nat) (hcols : 1 ≤ cols) :
    ∀ (ms : List GoStr) (rows : List StateRow),
      ms.Nodup →
      (∀ r ∈ rows,
        (r.Name ∉ ms → RowStateInv cols r) ∧
        (r.Name ∈ ms → RowStateInv (cols - 1) r)) →
      (∀ r ∈ ms.foldl
          (fun rows name => updateRow rows name
            (fun r => AppendResult r noResultRow 1)) rows,
        RowStateInv cols r) ∧
      (ms.foldl (fun rows name => updateRow rows name
          (fun r => AppendResult r noResultRow 1)) rows).map StateRow.Name
        = rows.map StateRow.Name
  | [], rows, _, hr => ⟨fun r hrm => (hr r hrm).1 (by simp), rfl⟩
  | n :: rest, rows, hmnod, hr => by
      rw [List.foldl_cons]
      have hnods := List.nodup_cons.mp hmnod
      have hstep : ∀ r' ∈ updateRow rows n
          (fun r => AppendResult r noResultRow 1),
          (r'.Name ∉ rest → RowStateInv cols r') ∧
          (r'.Name ∈ rest → RowStateInv (cols - 1) r') := by
        intro r' hr'
        simp only [updateRow, List.mem_map] at hr'
        obtain ⟨r, hrmem, hreq⟩ := hr'
        by_cases hrn : (r.Name == n) = true
        · have hrn2 : r.Name = n := by simpa using hrn
          rw [if_pos hrn] at hreq
          have hpre : RowStateInv (cols - 1) r :=
            (hr r hrmem).2 (by rw [hrn2]; simp)
          have hpost : RowStateInv cols r' := by
            rw [← hreq]
            have h2 := rowStateInv_appendResult noResultRow 1 hpre
            rwa [Nat.sub_add_cancel hcols] at h2
          have hname2 : r'.Name = n := by
            rw [← hreq, appendResult_Name, hrn2]
          refine ⟨fun _ => hpost, fun hc => ?_⟩
          exfalso
          apply hnods.1
          rw [← hname2]
          exact hc
        · rw [if_neg hrn] at hreq
          subst hreq
          have hrn2 : r.Name ≠ n := by simpa using hrn
          constructor
          · intro hnr
            refine (hr r hrmem).1 ?_
            intro hc
            rcases List.mem_cons.mp hc with hc | hc
            · exact hrn2 hc
            · exact hnr hc
          · intro hin
            exact (hr r hrmem).2 (List.mem_cons_of_mem _ hin)
      have ih := missingPass_inv cols hcols rest _ hnods.2 hstep
      refine ⟨ih.1, ?_⟩
      rw [ih.2, updateRow_map_name _ _ _ (fun r => appendResult_Name r _ _)]

/-- Grid-level invariant: unique row names and per-row well-formedness at
the grid's column count. -/
def GridInv (g : Grid) : Prop :=
  (g.Rows.map StateRow.Name).Nodup ∧
  ∀ r ∈ g.Rows, RowStateInv g.Columns.length r

theorem appendColumn_inv (headers : List GoStr) (format : NameConfig)
    (g : Grid) (build : Column) (hg : GridInv g) :
    GridInv (AppendColumn headers format g build) := by
  obtain ⟨hnod, hrows⟩ := hg
  simp only [AppendColumn]
  have hlen : (g.Columns ++ [mkStateColumn headers build]).length
      = g.Columns.length + 1 := by simp
  have hcols : 1 ≤ (g.Columns ++ [mkStateColumn headers build]).length := by
    omega
  have h0 : MidInv (g.Columns ++ [mkStateColumn headers build]).length
      { rows := g.Rows, found := [],
        missing := g.Rows.map StateRow.Name } := by
    refine ⟨hnod, hnod, ?_, ?_⟩
    · intro n hn
      exact ⟨hn, by simp⟩
    · intro r hr
      refine ⟨fun hmem => absurd hmem (by simp),
        fun _ => ⟨?_, List.mem_map_of_mem _ hr⟩⟩
      have h2 := hrows r hr
      rw [hlen]
      simpa using h2
  have h1 := foldBuildRows_inv format build.Metadata
    (g.Columns ++ [mkStateColumn headers build]).length hcols build.Rows _ h0
  obtain ⟨h1nod, h1mnod, h1miss, h1rows⟩ := h1
  have hmp := missingPass_inv
    (g.Columns ++ [mkStateColumn headers build]).length hcols _ _ h1mnod
    (by
      intro r hrm
      constructor
      · intro hnm
        by_cases hf : r.Name ∈ (build.Rows.foldl
            (fun (s : AcState) (p : GoStr × List Row) => p.2.foldl
              (fun s br => appendRecord format build.Metadata
                (g.Columns ++ [mkStateColumn headers build]).length p.1 br s)
              s)
            ({ rows := g.Rows, found := [],
               missing := g.Rows.map StateRow.Name } : AcState)).found
        · exact (h1rows r hrm).1 hf
        · exact absurd ((h1rows r hrm).2 hf).2 hnm
      · intro hm
        have hnf := (h1miss _ hm).2
        exact ((h1rows r hrm).2 hnf).1)
  refine ⟨?_, ?_⟩
  · rw [hmp.2]
    exact h1nod
  · intro r hr
    exact hmp.1 r hr

theorem gridInv_foldl (headers : List GoStr) (format : NameConfig) :
    ∀ (builds : List Column) (g : Grid), GridInv g →
      GridInv (builds.foldl (AppendColumn headers format) g)
  | [], _, h => h
  | b :: rest, g, h => by
      rw [List.foldl_cons]
      exact gridInv_foldl headers format rest _
        (appendColumn_inv headers format g b h)

/-- Newest column of the C1 counterexample: a single passing test `T`. -/
def buildWithT : Column :=
  { Id := gs "b2", Started := 0, Finished := 5, Passed := true,
    Rows := [(gs "T",
      [{ Result := RowResult.pass, Metrics := [],
         Metadata := [(gs "Tests name", gs "T")], Message := [],
         Icon := [] }])],
    Metadata := [] }

/-- Older column of the C1 counterexample: no test rows at all. -/
def buildEmpty : Column :=
  { Id := gs "b1", Started := 0, Finished := 5, Passed := true,
    Rows := [], Metadata := [] }

/-- C1 counterexample: after appending a column containing test `T` and then
a column without it, the grid has 2 columns and the row `T` has
`sum(results[1::2]) = len(cellIds) = 2` but `len(messages) = len(icons) = 1`
— the NO_RESULT padding cell appends no message or icon, so the claimed
`len(messages) == len(columns)` fails. -/
theorem C1_grid_invariants_counterexample :
    ([buildWithT, buildEmpty].foldl
      (AppendColumn [] (MakeNameConfig none))
      { Columns := [], Rows := [] }).Columns.length = 2 ∧
    ([buildWithT, buildEmpty].foldl
      (AppendColumn [] (MakeNameConfig none))
      { Columns := [], Rows := [] }).Rows.map
        (fun r => (r.Name, r.Messages.length, r.Icons.length,
          r.CellIds.length, rleCellCount r.Results)) =
      [(gs "T", 1, 1, 2, 2)] := by
  constructor
  · decide
  · decide

/-- C1 (amended): after the grid assembler has appended any sequence of
columns to an empty grid, every row satisfies
`sum(results[1::2]) = len(grid.Columns) = len(cellIds)`, while
`len(messages) = len(icons)` equals the number of non-NO_RESULT cells
(NO_RESULT padding appends cell ids but no messages or icons). -/
theorem C1_grid_invariants (headers : List GoStr) (format : NameConfig)
    (builds : List Column) (r : StateRow)
    (hr : r ∈ (builds.foldl (AppendColumn headers format)
      { Columns := [], Rows := [] }).Rows) :
    rleCellCount r.Results =
      ((builds.foldl (AppendColumn headers format)
        { Columns := [], Rows := [] }).Columns.length : Int) ∧
    r.CellIds.length =
      (builds.foldl (AppendColumn headers format)
        { Columns := [], Rows := [] }).Columns.length ∧
    (r.Messages.length : Int) = rleLiveCount r.Results ∧
    r.Icons.length = r.Messages.length := by
  have hg := gridInv_foldl headers format builds
    { Columns := [], Rows := [] } ⟨by simp, by simp⟩
  obtain ⟨hinv1, hinv2, hinv3, hinv4, hinv5⟩ := hg.2 r hr
  exact ⟨hinv2, hinv3, hinv4, hinv5⟩

/-- The grid row produced for the single test of `buildWithT`. -/
def rowT : StateRow :=
  { Name := gs "T", Id := gs "T", Results := [1, 1], CellIds := [[]],
    Messages := [[]], Icons := [[]], Metrics := [] }

/-- Concrete witness for `C1_grid_invariants`: the row `T` of the
one-column grid built from `buildWithT`. -/
theorem C1_grid_invariants_witness :
    rowT ∈ ([buildWithT].foldl (AppendColumn [] (MakeNameConfig none))
      { Columns := [], Rows := [] }).Rows ∧
    (rleCellCount rowT.Results =
      (([buildWithT].foldl (AppendColumn [] (MakeNameConfig none))
        { Columns := [], Rows := [] }).Columns.length : Int) ∧
    rowT.CellIds.length =
      ([buildWithT].foldl (AppendColumn [] (MakeNameConfig none))
        { Columns := [], Rows := [] }).Columns.length ∧
    (rowT.Messages.length : Int) = rleLiveCount rowT.Results ∧
    rowT.Icons.length = rowT.Messages.length) :=
  ⟨by decide,
   C1_grid_invariants [] (MakeNameConfig none) [buildWithT] rowT (by decide)⟩

/-! ## Model of Go net/url (the subset gcsPath relies on)

`gcsPath.Set` delegates parsing to `net/url.Parse` and `gcsPath.String` to
`url.URL.String`; the model below follows the net/url sources of the Go
toolchain the repository was built with (circa Go 1.10), over byte strings
modelled as ASCII character lists. -/

/-- Encoding modes of net/url's `escape`/`unescape`. -/
inductive UrlEncMode where
  | path
  | pathSegment
  | host
  | zone
  | userPassword
  | queryComponent
  | fragment
  deriving DecidableEq, Repr

/-- `'a' <= c && c <= 'z' || 'A' <= c && c <= 'Z'`. -/
def isAlphaGo (c : Char) : Bool :=
  (97 ≤ c.toNat ∧ c.toNat ≤ 122) ∨ (65 ≤ c.toNat ∧ c.toNat ≤ 90)

/-- `'0' <= c && c <= '9'`. -/
def isDigitGo (c : Char) : Bool :=
  48 ≤ c.toNat ∧ c.toNat ≤ 57

/-- net/url `shouldEscape`. -/
def urlShouldEscape (c : Char) (mode : UrlEncMode) : Bool :=
  if isAlphaGo c ∨ isDigitGo c then false
  else if (mode = UrlEncMode.host ∨ mode = UrlEncMode.zone) ∧
      c ∈ ['!', '$', '&', '\'', '(', ')', '*', '+', ',', ';', '=', ':',
           '[', ']', '<', '>', '"'] then false
  else if c ∈ ['-', '_', '.', '~'] then false
  else if c ∈ ['$', '&', '+', ',', '/', ':', ';', '=', '?', '@'] then
    if mode = UrlEncMode.path then decide (c = '?')
    else if mode = UrlEncMode.pathSegment then
      decide (c = '/' ∨ c = ';' ∨ c = ',' ∨ c = '?')
    else if mode = UrlEncMode.userPassword then
      decide (c = '@' ∨ c = '/' ∨ c = '?' ∨ c = ':')
    else if mode = UrlEncMode.queryComponent then true
    else if mode = UrlEncMode.fragment then false
    else true
  else if mode = UrlEncMode.fragment ∧ c ∈ ['!', '(', ')', '*'] then false
  else true

/-- net/url `ishex`. -/
def urlIsHex (c : Char) : Bool :=
  isDigitGo c ∨ (97 ≤ c.toNat ∧ c.toNat ≤ 102) ∨
    (65 ≤ c.toNat ∧ c.toNat ≤ 70)

/-- net/url `unhex`. -/
def urlUnhex (c : Char) : Nat :=
  if isDigitGo c then c.toNat - 48
  else if 97 ≤ c.toNat ∧ c.toNat ≤ 102 then c.toNat - 97 + 10
  else if 65 ≤ c.toNat ∧ c.toNat ≤ 70 then c.toNat - 65 + 10
  else 0

/-- net/url `unescape` (`none` models the error cases: malformed escape,
escaped ASCII in a host, invalid raw host byte). -/
def urlUnescape (mode : UrlEncMode) : GoStr → Option GoStr
  | [] => some []
  | c :: rest =>
      if c = '%' then
        match rest with
        | a :: b :: rest2 =>
            if urlIsHex a ∧ urlIsHex b then
              if mode = UrlEncMode.host ∧ urlUnhex a < 8 ∧
                  ¬(a = '2' ∧ b = '5') then none
              else
                match urlUnescape mode rest2 with
                | some t =>
                    some (Char.ofNat (urlUnhex a * 16 + urlUnhex b) :: t)
                | none => none
            else none
        | _ => none
      else if c = '+' then
        match urlUnescape mode rest with
        | some t =>
            some ((if mode = UrlEncMode.queryComponent then ' ' else '+') :: t)
        | none => none
      else
        if (mode = UrlEncMode.host ∨ mode = UrlEncMode.zone) ∧
            c.toNat < 128 ∧ urlShouldEscape c mode = true then none
        else
          match urlUnescape mode rest with
          | some t => some (c :: t)
          | none => none

/-- Upper-case hex digit. -/
def urlHexUpper (n : Nat) : Char :=
  ("0123456789ABCDEF".data).getD n 'X'

/-- One byte of net/url `escape`. -/
def urlEscapeChar (mode : UrlEncMode) (c : Char) : GoStr :=
  if c = ' ' ∧ mode = UrlEncMode.queryComponent then ['+']
  else if urlShouldEscape c mode then
    ['%', urlHexUpper (c.toNat / 16 % 16), urlHexUpper (c.toNat % 16)]
  else [c]

/-- net/url `escape`. -/
def urlEscape (s : GoStr) (mode : UrlEncMode) : GoStr :=
  (s.map (urlEscapeChar mode)).flatten

/-- net/url `validEncoded`. -/
def urlValidEncoded (s : GoStr) (mode : UrlEncMode) : Bool :=
  s.all fun c =>
    if c ∈ ['!', '$', '&', '\'', '(', ')', '*', '+', ',', ';', '=', ':',
            '@'] then true
    else if c ∈ ['[', ']'] then true
    else if c = '%' then true
    else !(urlShouldEscape c mode)

/-- net/url `validOptionalPort`. -/
def urlValidOptionalPort : GoStr → Bool
  | [] => true
  | c :: rest => c == ':' && rest.all fun d => isDigitGo d

/-- net/url `validUserinfo`. -/
def urlValidUserinfo (s : GoStr) : Bool :=
  s.all fun c =>
    isAlphaGo c || isDigitGo c ||
      decide (c ∈ ['-', '.', '_', ':', '~', '!', '$', '&', '\'', '(', ')',
        '*', '+', ',', ';', '=', '%', '@'])

/-- net/url `split(s, c, cutc)`. -/
def urlSplit (s : GoStr) (c : Char) (cutc : Bool) : GoStr × GoStr :=
  let pre := s.takeWhile fun x => x != c
  if pre.length = s.length then (s, [])
  else (pre, if cutc then s.drop (pre.length + 1) else s.drop pre.length)

/-- Split around the last occurrence of `c` (`strings.LastIndex`):
`some (before, after)` with the separator removed, `none` if absent. -/
def splitAtLast (c : Char) : GoStr → Option (GoStr × GoStr)
  | [] => none
  | x :: rest =>
      match splitAtLast c rest with
      | some (pre, post) => some (x :: pre, post)
      | none => if x == c then some ([], rest) else none

/-- Does `s` start with `pat`? -/
def startsWith : GoStr → GoStr → Bool
  | _, [] => true
  | [], _ :: _ => false
  | c :: rest, p :: prest => c == p && startsWith rest prest

/-- Index of the first occurrence of the substring `pat` (`strings.Index`). -/
def firstSubPos (pat : GoStr) : GoStr → Option Nat
  | [] => if pat.isEmpty then some 0 else none
  | c :: rest =>
      if startsWith (c :: rest) pat then some 0
      else (firstSubPos pat rest).map fun i => i + 1

/-- Index of the first occurrence of the character `c` (`strings.Index`). -/
def firstIdxOf (s : GoStr) (c : Char) : Option Nat :=
  s.findIdx? fun x => x == c

/-- net/url `Userinfo`. -/
structure UrlUserinfo where
  username : GoStr
  password : GoStr
  passwordSet : Bool
  deriving DecidableEq, Repr

/-- net/url `parseHost`. -/
def urlParseHost (host : GoStr) : Option GoStr :=
  if host.head? = some '[' then
    match splitAtLast ']' host with
    | none => none
    | some (pre, post) =>
        if urlValidOptionalPort post = false then none
        else
          match firstSubPos (gs "%25") pre with
          | some z =>
              match urlUnescape UrlEncMode.host (pre.take z),
                    urlUnescape UrlEncMode.zone (pre.drop z),
                    urlUnescape UrlEncMode.host (']' :: post) with
              | some h1, some h2, some h3 => some (h1 ++ h2 ++ h3)
              | _, _, _ => none
          | none => urlUnescape UrlEncMode.host host
  else
    match splitAtLast ':' host with
    | some (_, post) =>
        if urlValidOptionalPort (':' :: post) = false then none
        else urlUnescape UrlEncMode.host host
    | none => urlUnescape UrlEncMode.host host

/-- net/url `parseAuthority`. -/
def urlParseAuthority (authority : GoStr) :
    Option (Option UrlUserinfo × GoStr) :=
  match splitAtLast '@' authority with
  | none =>
      match urlParseHost authority with
      | some h => some (none, h)
      | none => none
  | some (userinfo, hostpart) =>
      match urlParseHost hostpart with
      | none => none
      | some host =>
          if urlValidUserinfo userinfo = false then none
          else if ¬ userinfo.contains ':' then
            match urlUnescape UrlEncMode.userPassword userinfo with
            | some un => some (some ⟨un, [], false⟩, host)
            | none => none
          else
            let p := urlSplit userinfo ':' true
            match urlUnescape UrlEncMode.userPassword p.1,
                  urlUnescape UrlEncMode.userPassword p.2 with
            | some un, some pw => some (some ⟨un, pw, true⟩, host)
            | _, _ => none

/-- net/url `URL` (the fields the updater can reach).  Go's opaque-part
field keeps its meaning under the name `Opq`, since its Go name is a
reserved word in Lean. -/
structure GoURL where
  Scheme : GoStr
  Opq : GoStr
  User : Option UrlUserinfo
  Host : GoStr
  Path : GoStr
  RawPath : GoStr
  ForceQuery : Bool
  RawQuery : GoStr
  Fragment : GoStr
  deriving DecidableEq, Repr

/-- The zero `url.URL`. -/
def emptyGoURL : GoURL :=
  { Scheme := [], Opq := [], User := none, Host := [], Path := [],
    RawPath := [], ForceQuery := false, RawQuery := [], Fragment := [] }

/-- net/url `getscheme`, with the original string kept for the
"no scheme" outcomes. -/
def getschemeAux (orig : GoStr) (acc : GoStr) : GoStr → Option (GoStr × GoStr)
  | [] => some ([], orig)
  | c :: rest =>
      if isAlphaGo c then getschemeAux orig (acc ++ [c]) rest
      else if isDigitGo c ∨ c = '+' ∨ c = '-' ∨ c = '.' then
        if acc = [] then some ([], orig)
        else getschemeAux orig (acc ++ [c]) rest
      else if c = ':' then
        if acc = [] then none else some (acc, rest)
      else some ([], orig)

/-- net/url `getscheme` (`none` is the "missing protocol scheme" error). -/
def urlGetScheme (rawurl : GoStr) : Option (GoStr × GoStr) :=
  getschemeAux rawurl [] rawurl

/-- `URL.setPath`: the decoded path together with the `RawPath` hint (empty
when re-escaping the decoded path reproduces the input). -/
def urlSetPathFields (p : GoStr) : Option (GoStr × GoStr) :=
  match urlUnescape UrlEncMode.path p with
  | none => none
  | some path =>
      some (path, if urlEscape path UrlEncMode.path = p then [] else p)

/-- The tail of net/url `parse`: the authority block (entered for
`//`-prefixed rests, except a scheme-less `///`) followed by `setPath`. -/
def urlAuthorityAndPath (scheme : GoStr) (forceQuery : Bool)
    (rawQuery : GoStr) (rest : GoStr) : Option GoURL :=
  if (scheme ≠ [] ∨ ¬ rest.take 3 = gs "///") ∧ rest.take 2 = gs "//" then
    let ar := urlSplit (rest.drop 2) '/' false
    match urlParseAuthority ar.1 with
    | none => none
    | some (user, host) =>
        match urlSetPathFields ar.2 with
        | none => none
        | some pr =>
            some { Scheme := scheme, Opq := [], User := user, Host := host,
                   Path := pr.1, RawPath := pr.2, ForceQuery := forceQuery,
                   RawQuery := rawQuery, Fragment := [] }
  else
    match urlSetPathFields rest with
    | none => none
    | some pr =>
        some { Scheme := scheme, Opq := [], User := none, Host := [],
               Path := pr.1, RawPath := pr.2, ForceQuery := forceQuery,
               RawQuery := rawQuery, Fragment := [] }

/-- net/url `parse` with `viaRequest = false`: scheme (lowercased), the
trailing-`?` ForceQuery special case, query split, the opaque (rootless)
branch with the first-segment-colon error for scheme-less URLs, then
authority and path. -/
def urlParseMain (rawurl : GoStr) : Option GoURL :=
  if rawurl = gs "*" then some { emptyGoURL with Path := gs "*" }
  else
    match urlGetScheme rawurl with
    | none => none
    | some sr =>
        let scheme := sr.1.map Char.toLower
        let rest0 := sr.2
        let hasQ : Bool := decide (rest0.getLast? = some '?') &&
          !(decide ('?' ∈ rest0.dropLast))
        let rest1 := if hasQ then rest0.dropLast
                     else (urlSplit rest0 '?' true).1
        let forceQuery : Bool := hasQ
        let rawQuery := if hasQ then [] else (urlSplit rest0 '?' true).2
        if rest1.head? ≠ some '/' then
          if scheme ≠ [] then
            some { emptyGoURL with
              Scheme := scheme, Opq := rest1,
              ForceQuery := forceQuery, RawQuery := rawQuery }
          else
            let colonBad : Bool :=
              match firstIdxOf rest1 ':', firstIdxOf rest1 '/' with
              | some ci, some si => decide (ci < si)
              | some _, none => true
              | none, _ => false
            if colonBad then none
            else urlAuthorityAndPath scheme forceQuery rawQuery rest1
        else urlAuthorityAndPath scheme forceQuery rawQuery rest1

/-- net/url `Parse`: split the fragment first, parse the rest, then decode
the fragment (an empty fragment leaves the field empty, dropping a trailing
`#`). -/
def urlParse (rawurl : GoStr) : Option GoURL :=
  let uf := urlSplit rawurl '#' true
  match urlParseMain uf.1 with
  | none => none
  | some u =>
      if uf.2 = [] then some u
      else
        match urlUnescape UrlEncMode.fragment uf.2 with
        | none => none
        | some f => some { u with Fragment := f }

/-- `URL.EscapedPath`. -/
def GoURL.EscapedPath (u : GoURL) : GoStr :=
  if u.RawPath ≠ [] ∧ urlValidEncoded u.RawPath UrlEncMode.path = true ∧
      urlUnescape UrlEncMode.path u.RawPath = some u.Path then u.RawPath
  else if u.Path = gs "*" then gs "*"
  else urlEscape u.Path UrlEncMode.path

/-- `Userinfo.String`. -/
def UrlUserinfo.render (ui : UrlUserinfo) : GoStr :=
  urlEscape ui.username UrlEncMode.userPassword ++
    (if ui.passwordSet then
      ':' :: urlEscape ui.password UrlEncMode.userPassword
    else [])

/-- `URL.String`. -/
def GoURL.render (u : GoURL) : GoStr :=
  let schemePart := if u.Scheme ≠ [] then u.Scheme ++ [':'] else []
  let mainPart :=
    if u.Opq ≠ [] then u.Opq
    else
      let authority :=
        if u.Scheme ≠ [] ∨ u.Host ≠ [] ∨ u.User.isSome then
          (if u.Host ≠ [] ∨ u.Path ≠ [] ∨ u.User.isSome then gs "//"
           else []) ++
          (match u.User with
           | some ui => ui.render ++ ['@']
           | none => []) ++
          (if u.Host ≠ [] then urlEscape u.Host UrlEncMode.host else [])
        else []
      let path := u.EscapedPath
      let slashFix :=
        if path ≠ [] ∧ path.head? ≠ some '/' ∧ u.Host ≠ [] then gs "/"
        else []
      let dotFix :=
        if schemePart ++ authority ++ slashFix = [] then
          match firstIdxOf path ':', firstIdxOf path '/' with
          | some ci, some si => if ci < si then gs "./" else []
          | some _, none => gs "./"
          | _, _ => []
        else []
      authority ++ slashFix ++ dotFix ++ path
  let queryPart :=
    if u.ForceQuery ∨ u.RawQuery ≠ [] then '?' :: u.RawQuery else []
  let fragPart :=
    if u.Fragment ≠ [] then
      '#' :: urlEscape u.Fragment UrlEncMode.fragment
    else []
  schemePart ++ mainPart ++ queryPart ++ fragPart

/-- `gcsPath.Set`: parse and validate; `some` models a `nil` error with the
stored URL. -/
def gcsPathSet (v : GoStr) : Option GoURL :=
  match urlParse v with
  | none => none
  | some u =>
      if u.Scheme ≠ gs "gs" then none
      else if u.Host.contains ':' then none
      else if u.Opq ≠ [] then none
      else if u.User.isSome then none
      else if u.RawQuery ≠ [] then none
      else if u.Fragment ≠ [] then none
      else some u

/-- `gcsPath.String`. -/
def gcsPathString (u : GoURL) : GoStr := u.render

/-- `gcsPath.bucket`. -/
def gcsPathBucket (u : GoURL) : GoStr := u.Host

/-- C7 counterexample: `Set("gs:///x")` succeeds although the bucket (the
URL host) is empty, so "errors exactly when `v` is not a gs://bucket/object
URL with a non-empty bucket" fails in the accepting direction. -/
theorem C7_set_error_counterexample :
    (gcsPathSet (gs "gs:///x")).isSome = true ∧
    (gcsPathSet (gs "gs:///x")).map gcsPathBucket = some [] := by
  constructor
  · decide
  · decide

/-- C7 (amended): `Set(v)` succeeds exactly when `url.Parse(v)` succeeds and
yields scheme `gs` (after the parser's lowercasing), a host without `:`, and
empty opaque, user, query and fragment components; the bucket (host) may be
empty. -/
theorem C7_set_error_characterization (v : GoStr) :
    (gcsPathSet v).isSome = true ↔
      ∃ u, urlParse v = some u ∧ u.Scheme = gs "gs" ∧
        u.Host.contains ':' = false ∧ u.Opq = [] ∧ u.User = none ∧
        u.RawQuery = [] ∧ u.Fragment = [] := by
  rw [gcsPathSet]
  rcases hp : urlParse v with _ | u
  · simp
  · simp only []
    constructor
    · intro h
      split_ifs at h with h1 h2 h3 h4 h5 h6
      · simp at h
      · simp at h
      · simp at h
      · simp at h
      · simp at h
      · simp at h
      · refine ⟨u, rfl, ?_, ?_, ?_, ?_, ?_, ?_⟩
        · exact not_ne_iff.mp h1
        · simpa using h2
        · exact not_ne_iff.mp h3
        · simpa using h4
        · exact not_ne_iff.mp h5
        · exact not_ne_iff.mp h6
    · rintro ⟨u2, hu2, hs, hh, ho, hus, hq, hf⟩
      have hu3 : u2 = u := ((Option.some.injEq u u2).mp hu2).symm
      subst hu3
      rw [if_neg (not_ne_iff.mpr hs), hh]
      simp only [Bool.false_eq_true, if_false]
      rw [if_neg (not_ne_iff.mpr ho), hus]
      simp only [Option.isSome_none, Bool.false_eq_true, if_false]
      rw [if_neg (not_ne_iff.mpr hq), if_neg (not_ne_iff.mpr hf)]
      rfl

/-- C6 counterexample: `Set("GS://b/x")` is accepted (url.Parse lowercases
the scheme) but `String()` then returns the normalized `"gs://b/x"`, not the
input. -/
theorem C6_roundtrip_counterexample :
    (gcsPathSet (gs "GS://b/x")).isSome = true ∧
    (gcsPathSet (gs "GS://b/x")).map gcsPathString = some (gs "gs://b/x") ∧
    gs "gs://b/x" ≠ gs "GS://b/x" := by
  refine ⟨by decide, by decide, by decide⟩

/-- Unreserved ASCII characters (alphanumeric or `-._~`): never escaped in
any encoding mode and legal raw in a host. -/
def hostSafeChar (c : Char) : Bool :=
  isAlphaGo c || isDigitGo c || decide (c ∈ ['-', '.', '_', '~'])

/-- Characters never rewritten in a path: unreserved or `/`. -/
def pathSafeChar (c : Char) : Bool := hostSafeChar c || c == '/'

theorem hostSafe_shouldEscape (c : Char) (mode : UrlEncMode)
    (h : hostSafeChar c = true) : urlShouldEscape c mode = false := by
  rw [hostSafeChar] at h
  simp only [Bool.or_eq_true, decide_eq_true_eq] at h
  rcases h with (h | h) | h
  · rw [urlShouldEscape, if_pos (Or.inl h)]
  · rw [urlShouldEscape, if_pos (Or.inr h)]
  · simp only [List.mem_cons, List.not_mem_nil, or_false] at h
    rcases h with rfl | rfl | rfl | rfl <;> cases mode <;> decide

theorem pathSafe_shouldEscape (c : Char)
    (h : pathSafeChar c = true) : urlShouldEscape c UrlEncMode.path = false := by
  rw [pathSafeChar] at h
  simp only [Bool.or_eq_true, beq_iff_eq] at h
  rcases h with h | rfl
  · exact hostSafe_shouldEscape c _ h
  · decide

theorem hostSafe_ne (c : Char) (h : hostSafeChar c = true) :
    c ≠ '#' ∧ c ≠ '?' ∧ c ≠ '%' ∧ c ≠ '+' ∧ c ≠ '@' ∧ c ≠ ':' ∧
      c ≠ '/' ∧ c ≠ '[' ∧ c ≠ '*' := by
  refine ⟨?_, ?_, ?_, ?_, ?_, ?_, ?_, ?_, ?_⟩ <;>
    (intro hc; rw [hc] at h; exact absurd h (by decide))

theorem pathSafe_ne (c : Char) (h : pathSafeChar c = true) :
    c ≠ '#' ∧ c ≠ '?' ∧ c ≠ '%' ∧ c ≠ '+' ∧ c ≠ '@' := by
  refine ⟨?_, ?_, ?_, ?_, ?_⟩ <;>
    (intro hc; rw [hc] at h; exact absurd h (by decide))

theorem urlUnescape_id (mode : UrlEncMode) :
    ∀ s : GoStr,
      (∀ c ∈ s, c ≠ '%' ∧ c ≠ '+' ∧ urlShouldEscape c mode = false) →
      urlUnescape mode s = some s
  | [], _ => rfl
  | c :: rest, h => by
      obtain ⟨h1, h2, h3⟩ := h c (List.mem_cons_self c rest)
      have ih := urlUnescape_id mode rest
        (fun d hd => h d (List.mem_cons_of_mem c hd))
      have hcond : ¬((mode = UrlEncMode.host ∨ mode = UrlEncMode.zone) ∧
          c.toNat < 128 ∧ urlShouldEscape c mode = true) := by
        rintro ⟨_, _, hesc⟩
        rw [h3] at hesc
        exact Bool.false_ne_true hesc
      rcases rest with _ | ⟨a, _ | ⟨b, rest2⟩⟩ <;>
        rw [urlUnescape, if_neg h1, if_neg h2, if_neg hcond, ih] <;>
        (intro x y z hxyz; exact absurd hxyz (by simp))

theorem urlEscape_id (mode : UrlEncMode) :
    ∀ s : GoStr,
      (∀ c ∈ s, urlShouldEscape c mode = false ∧
        ¬(c = ' ' ∧ mode = UrlEncMode.queryComponent)) →
      urlEscape s mode = s
  | [], _ => rfl
  | c :: rest, h => by
      obtain ⟨h1, h2⟩ := h c (List.mem_cons_self c rest)
      have ih := urlEscape_id mode rest
        (fun d hd => h d (List.mem_cons_of_mem c hd))
      simp only [urlEscape, List.map_cons, List.flatten_cons] at ih ⊢
      rw [urlEscapeChar, if_neg h2, if_neg (by rw [h1]; exact Bool.false_ne_true),
        ih, List.singleton_append]

theorem takeWhile_bne_boundary (sep : Char) :
    ∀ (h p : GoStr), (∀ c ∈ h, c ≠ sep) → (p = [] ∨ p.head? = some sep) →
      (h ++ p).takeWhile (fun x => x != sep) = h
  | [], p, _, hp => by
      rcases hp with rfl | hp
      · rfl
      · cases p with
        | nil => rfl
        | cons q rest =>
            have hq : q = sep := by simpa using hp
            subst hq
            simp [List.takeWhile_cons]
  | c :: h2, p, hall, hp => by
      have hc : (c != sep) = true := by
        simpa [bne_iff_ne] using hall c (by simp)
      simp only [List.cons_append, List.takeWhile_cons, hc, if_true]
      rw [takeWhile_bne_boundary sep h2 p
        (fun d hd => hall d (by simp [hd])) hp]

theorem urlSplit_boundary (sep : Char) (h p : GoStr)
    (hall : ∀ c ∈ h, c ≠ sep) (hp : p = [] ∨ p.head? = some sep) :
    urlSplit (h ++ p) sep false = (h, p) := by
  rw [urlSplit]
  rw [takeWhile_bne_boundary sep h p hall hp]
  rcases hp with rfl | hp
  · rw [if_pos (by simp)]
    simp
  · have hpne : p ≠ [] := by
      intro hc
      rw [hc] at hp
      simp at hp
    have hlen : h.length ≠ (h ++ p).length := by
      simp only [List.length_append]
      have : 0 < p.length := List.length_pos.mpr hpne
      omega
    rw [if_neg hlen]
    simp [List.drop_left]

theorem urlSplit_no_sep (sep : Char) (cutc : Bool) (s : GoStr)
    (hall : ∀ c ∈ s, c ≠ sep) : urlSplit s sep cutc = (s, []) := by
  have ht := takeWhile_bne_boundary sep s [] hall (Or.inl rfl)
  rw [List.append_nil] at ht
  rw [urlSplit, ht, if_pos rfl]

theorem splitAtLast_none (c : Char) :
    ∀ s : GoStr, (∀ x ∈ s, x ≠ c) → splitAtLast c s = none
  | [], _ => rfl
  | x :: rest, h => by
      rw [splitAtLast, splitAtLast_none c rest (fun d hd => h d (by simp [hd]))]
      have hx : (x == c) = false := by simpa using h x (by simp)
      simp [hx]

theorem getLast?_ne_of (s : GoStr) (a : Char) (h : ∀ c ∈ s, c ≠ a) :
    s.getLast? ≠ some a := by
  intro heq
  obtain ⟨h9, hx⟩ := List.mem_getLast?_eq_getLast
    (show a ∈ s.getLast? from by rw [heq]; rfl)
  exact h a (by rw [hx]; exact List.getLast_mem h9) rfl

theorem urlGetScheme_gs (t : GoStr) :
    urlGetScheme ('g' :: 's' :: ':' :: t) = some (gs "gs", t) := by
  rw [urlGetScheme, getschemeAux, if_pos (by decide)]
  rw [getschemeAux, if_pos (by decide)]
  rw [getschemeAux, if_neg (by decide), if_neg (by decide), if_pos rfl,
    if_neg (by decide),
    show (([] : GoStr) ++ ['g'] ++ ['s']) = gs "gs" from by decide]

/-- The URL `Set` stores for a canonical `gs://host/path` input. -/
def canonicalGsURL (h p : GoStr) : GoURL :=
  { Scheme := gs "gs", Opq := [], User := none, Host := h, Path := p,
    RawPath := [], ForceQuery := false, RawQuery := [], Fragment := [] }

theorem canonical_parse (h p : GoStr) (hh : h ≠ [])
    (hhs : ∀ c ∈ h, hostSafeChar c = true)
    (hps : ∀ c ∈ p, pathSafeChar c = true)
    (hp0 : p = [] ∨ p.head? = some '/') :
    urlParse (gs "gs://" ++ h ++ p) = some (canonicalGsURL h p) := by
  have hgs5 : gs "gs://" = (['g', 's', ':', '/', '/'] : GoStr) := by decide
  have hinput : gs "gs://" ++ h ++ p =
      'g' :: 's' :: ':' :: '/' :: '/' :: (h ++ p) := by
    rw [hgs5]
    simp
  have hmem : ∀ c ∈ h ++ p, c ≠ '#' ∧ c ≠ '?' ∧ c ≠ '%' ∧ c ≠ '+' := by
    intro c hc
    rcases List.mem_append.mp hc with hc | hc
    · obtain ⟨a1, a2, a3, a4, _⟩ := hostSafe_ne c (hhs c hc)
      exact ⟨a1, a2, a3, a4⟩
    · obtain ⟨a1, a2, a3, a4, _⟩ := pathSafe_ne c (hps c hc)
      exact ⟨a1, a2, a3, a4⟩
  have hallSharp : ∀ c ∈ ('g' :: 's' :: ':' :: '/' :: '/' :: (h ++ p)),
      c ≠ '#' := by
    intro c hc
    simp only [List.mem_cons] at hc
    rcases hc with rfl | rfl | rfl | rfl | rfl | hc
    · decide
    · decide
    · decide
    · decide
    · decide
    · exact (hmem c hc).1
  have hallQ : ∀ c ∈ ('/' :: '/' :: (h ++ p)), c ≠ '?' := by
    intro c hc
    simp only [List.mem_cons] at hc
    rcases hc with rfl | rfl | hc
    · decide
    · decide
    · exact (hmem c hc).2.1
  have hPH : urlParseHost h = some h := by
    have hhead : ¬ h.head? = some '[' := by
      cases h with
      | nil => simp
      | cons c0 h2 =>
          intro hc
          have hc0 : c0 = '[' := by simpa using hc
          exact (hostSafe_ne c0 (hhs c0 (by simp))).2.2.2.2.2.2.2.1 hc0
    rw [urlParseHost, if_neg hhead,
      splitAtLast_none ':' h
        (fun x hx => (hostSafe_ne x (hhs x hx)).2.2.2.2.2.1)]
    exact urlUnescape_id UrlEncMode.host h (fun c hc =>
      ⟨(hostSafe_ne c (hhs c hc)).2.2.1, (hostSafe_ne c (hhs c hc)).2.2.2.1,
        hostSafe_shouldEscape c _ (hhs c hc)⟩)
  have hPA : urlParseAuthority h = some (none, h) := by
    rw [urlParseAuthority,
      splitAtLast_none '@' h
        (fun x hx => (hostSafe_ne x (hhs x hx)).2.2.2.2.1), hPH]
  have hSP : urlSetPathFields p = some (p, []) := by
    have hU : urlUnescape UrlEncMode.path p = some p :=
      urlUnescape_id _ p (fun c hc =>
        ⟨(pathSafe_ne c (hps c hc)).2.2.1, (pathSafe_ne c (hps c hc)).2.2.2.1,
          pathSafe_shouldEscape c (hps c hc)⟩)
    have hE : urlEscape p UrlEncMode.path = p :=
      urlEscape_id _ p (fun c hc =>
        ⟨pathSafe_shouldEscape c (hps c hc),
          fun hcc => absurd hcc.2 (by decide)⟩)
    rw [urlSetPathFields, hU]
    show some (p, if urlEscape p UrlEncMode.path = p then [] else p)
      = some (p, [])
    rw [if_pos hE]
  have hdrop : ('/' :: '/' :: (h ++ p)).drop 2 = h ++ p := rfl
  have hAAP : urlAuthorityAndPath (gs "gs") false []
      ('/' :: '/' :: (h ++ p)) = some (canonicalGsURL h p) := by
    rw [urlAuthorityAndPath, if_pos ⟨Or.inl (by decide), by rfl⟩]
    simp only [hdrop,
      urlSplit_boundary '/' h p
        (fun c hc => (hostSafe_ne c (hhs c hc)).2.2.2.2.2.2.1) hp0,
      hPA, hSP]
    rfl
  have hstar : ('g' :: 's' :: ':' :: '/' :: '/' :: (h ++ p)) ≠ gs "*" := by
    intro hc
    rw [show gs "*" = (['*'] : GoStr) from by decide] at hc
    simp at hc
  have hlower : (gs "gs").map Char.toLower = gs "gs" := by decide
  have hQfalse : decide (('/' :: '/' :: (h ++ p)).getLast? = some '?')
      = false :=
    decide_eq_false (getLast?_ne_of _ '?' hallQ)
  have hPM : urlParseMain ('g' :: 's' :: ':' :: '/' :: '/' :: (h ++ p))
      = some (canonicalGsURL h p) := by
    rw [urlParseMain, if_neg hstar, urlGetScheme_gs]
    simp only [hlower, hQfalse, Bool.false_and,
      Bool.false_eq_true, if_false,
      urlSplit_no_sep '?' true _ hallQ]
    rw [if_neg (by simp)]
    exact hAAP
  rw [hinput, urlParse,
    urlSplit_no_sep '#' true _ hallSharp]
  simp only [hPM]
  rfl

/-- C6 counterexample helper facts are in `C6_roundtrip_counterexample`;
this is the amended round-trip statement.

C6 (amended): `String()` round-trips `Set()` on accepted inputs in
canonical form — lowercase `gs` scheme, a non-empty bucket of unreserved
characters (alphanumeric, `-._~`), and an object path (empty or
`/`-rooted) of unreserved characters and slashes.  On other accepted
inputs `String()` returns the parser's normalized serialization, which can
differ from the input (uppercase scheme, empty trailing `#`, re-escaped
bytes). -/
theorem C6_roundtrip (h p : GoStr) (hh : h ≠ [])
    (hhs : ∀ c ∈ h, hostSafeChar c = true)
    (hps : ∀ c ∈ p, pathSafeChar c = true)
    (hp0 : p = [] ∨ p.head? = some '/') :
    gcsPathSet (gs "gs://" ++ h ++ p) = some (canonicalGsURL h p) ∧
    gcsPathString (canonicalGsURL h p) = gs "gs://" ++ h ++ p := by
  have hparse := canonical_parse h p hh hhs hps hp0
  have hcontains : h.contains ':' = false := by
    have : ':' ∉ h := fun hc =>
      (hostSafe_ne ':' (hhs ':' hc)).2.2.2.2.2.1 rfl
    simpa using this
  constructor
  · rw [gcsPathSet, hparse]
    simp only [canonicalGsURL]
    rw [if_neg (by simp), hcontains]
    simp only [Bool.false_eq_true, if_false]
    rw [if_neg (by simp)]
    simp
  · have hEhost : urlEscape h UrlEncMode.host = h :=
      urlEscape_id _ h (fun c hc =>
        ⟨hostSafe_shouldEscape c _ (hhs c hc),
          fun hcc => absurd hcc.2 (by decide)⟩)
    have hEpath : urlEscape p UrlEncMode.path = p :=
      urlEscape_id _ p (fun c hc =>
        ⟨pathSafe_shouldEscape c (hps c hc),
          fun hcc => absurd hcc.2 (by decide)⟩)
    have hPstar : p ≠ gs "*" := by
      rcases hp0 with rfl | hp
      · decide
      · intro hc
        rw [hc] at hp
        rw [show gs "*" = (['*'] : GoStr) from by decide] at hp
        simp at hp
    have hlit : canonicalGsURL h p =
        { Scheme := ['g', 's'], Opq := [], User := none, Host := h,
          Path := p, RawPath := [], ForceQuery := false, RawQuery := [],
          Fragment := [] } := by
      rw [canonicalGsURL, show gs "gs" = (['g', 's'] : GoStr) from by decide]
    have hEP : GoURL.EscapedPath
        { Scheme := ['g', 's'], Opq := [], User := none, Host := h,
          Path := p, RawPath := [], ForceQuery := false, RawQuery := [],
          Fragment := [] } = p := by
      rw [GoURL.EscapedPath, if_neg (by simp), if_neg (by simpa using hPstar)]
      exact hEpath
    have hgs5b : gs "gs://" = (['g', 's', ':', '/', '/'] : GoStr) := by decide
    have hss2 : gs "//" = (['/', '/'] : GoStr) := by decide
    rcases hp0 with rfl | hphead
    · rw [gcsPathString, hlit, GoURL.render]
      simp [hEP, hEhost, hh, hgs5b, hss2, firstIdxOf]
    · rw [gcsPathString, hlit, GoURL.render]
      simp [hEP, hEhost, hh, hphead, hgs5b, hss2]

/-- Concrete witness for `C6_roundtrip`: `gs://bucket/path/to/obj` is
accepted and formats back to itself. -/
theorem C6_roundtrip_witness :
    ((gs "bucket" : GoStr) ≠ [] ∧
      (∀ c ∈ (gs "bucket" : GoStr), hostSafeChar c = true) ∧
      (∀ c ∈ (gs "/path/to/obj" : GoStr), pathSafeChar c = true)) ∧
    (gcsPathSet (gs "gs://" ++ gs "bucket" ++ gs "/path/to/obj") =
      some (canonicalGsURL (gs "bucket") (gs "/path/to/obj")) ∧
    gcsPathString (canonicalGsURL (gs "bucket") (gs "/path/to/obj")) =
      gs "gs://" ++ gs "bucket" ++ gs "/path/to/obj") :=
  ⟨⟨by decide, by decide, by decide⟩,
    C6_roundtrip (gs "bucket") (gs "/path/to/obj") (by decide) (by decide)
      (by decide) (by decide)⟩

end Testgrid
